import Mathlib

/-!
# rvl — verification of the CSV comparison pipeline

Shallow embedding of the `rvl` CSV-diff tool. Byte strings are modelled as
`List Nat` (one element per byte); IEEE `f64` values are idealised as exact
rationals `ℚ`, with the `is_finite` guard of `evaluate_coverage` kept as an
explicit `F64` sum type. All definitions follow the Rust sources
(`src/normalize/trim.rs`, `src/numeric/*.rs`, `src/diff/*.rs`,
`src/alignment/*.rs`, `src/format/ident_*.rs`, `src/cli/exit.rs`,
`src/orchestrator.rs`).
-/

namespace Rvl

/-- Byte strings: one `Nat` per byte. -/
abbrev Bytes := List Nat

/-- Decidable equality for `Except` results. -/
instance instDecEqExcept {ε σ : Type} [DecidableEq ε] [DecidableEq σ] :
    DecidableEq (Except ε σ)
  | .ok a, .ok b =>
    if h : a = b then .isTrue (by rw [h]) else .isFalse (by intro hc; cases hc; exact h rfl)
  | .ok _, .error _ => .isFalse fun hc => Except.noConfusion hc
  | .error _, .ok _ => .isFalse fun hc => Except.noConfusion hc
  | .error a, .error b =>
    if h : a = b then .isTrue (by rw [h]) else .isFalse (by intro hc; cases hc; exact h rfl)

/-! ## Computable rational arithmetic

The standard `Rat` operations are `@[irreducible]`, so the embedding routes
all arithmetic through `mkRat`, which the kernel evaluates. Bridge lemmas
(`qadd_eq` …) identify each operation with the corresponding field operation
on `ℚ`. -/

/-- Addition on `ℚ` via `mkRat` (kernel-computable). -/
def qadd (a b : ℚ) : ℚ := mkRat (a.num * b.den + b.num * a.den) (a.den * b.den)

/-- Subtraction on `ℚ` via `mkRat` (kernel-computable). -/
def qsub (a b : ℚ) : ℚ := mkRat (a.num * b.den - b.num * a.den) (a.den * b.den)

/-- Multiplication on `ℚ` via `mkRat` (kernel-computable). -/
def qmul (a b : ℚ) : ℚ := mkRat (a.num * b.num) (a.den * b.den)

/-- Negation on `ℚ` via `mkRat` (kernel-computable). -/
def qneg (a : ℚ) : ℚ := mkRat (-a.num) a.den

/-- Inverse on `ℚ` via `mkRat` (kernel-computable; `qinv 0 = 0`). -/
def qinv (b : ℚ) : ℚ :=
  if 0 ≤ b.num then mkRat b.den b.num.toNat
  else mkRat (-(b.den : Int)) (-b.num).toNat

/-- Division on `ℚ` via `mkRat` (kernel-computable; division by zero is 0,
matching the `ℚ` convention). -/
def qdiv (a b : ℚ) : ℚ := qmul a (qinv b)

/-- Absolute value on `ℚ` (kernel-computable). -/
def qabs (a : ℚ) : ℚ := if a.num < 0 then qneg a else a

/-- Embed a natural number (kernel-computable). -/
def qofNat (n : Nat) : ℚ := mkRat n 1

/-! ## normalize/trim.rs -/

/-- `is_ascii_blank`: ASCII space (0x20) or tab (0x09). -/
def is_ascii_blank (b : Nat) : Bool := b == 32 || b == 9

/-- `ascii_trim`: strip ASCII blanks from both ends (and nothing else). -/
def ascii_trim (input : Bytes) : Bytes :=
  ((input.dropWhile is_ascii_blank).reverse.dropWhile is_ascii_blank).reverse

/-! ## numeric/missing.rs -/

/-- `u8::to_ascii_lowercase`. -/
def to_ascii_lower (b : Nat) : Nat := if 65 ≤ b ∧ b ≤ 90 then b + 32 else b

/-- `<[u8]>::eq_ignore_ascii_case`. -/
def eq_ignore_ascii_case (a b : Bytes) : Bool :=
  a.map to_ascii_lower == b.map to_ascii_lower

/-- `is_missing_token`: empty, `-`, `NA`, `N/A`, `NULL`, `NAN`, `NONE`
after ASCII-trim, letters case-insensitive. -/
def is_missing_token (input : Bytes) : Bool :=
  let trimmed := ascii_trim input
  trimmed.isEmpty || trimmed == [45] ||
    eq_ignore_ascii_case trimmed [78, 65] ||
    eq_ignore_ascii_case trimmed [78, 47, 65] ||
    eq_ignore_ascii_case trimmed [78, 85, 76, 76] ||
    eq_ignore_ascii_case trimmed [78, 65, 78] ||
    eq_ignore_ascii_case trimmed [78, 79, 78, 69]

/-! ## numeric/parse.rs -/

/-- ASCII digit `0`–`9`. -/
def isDigit (b : Nat) : Bool := 48 ≤ b && b ≤ 57

/-- `all_digits`. -/
def all_digits (s : Bytes) : Bool := s.all isDigit

/-- `has_digit`. -/
def has_digit (s : Bytes) : Bool := s.any isDigit

/-- Digit run to a natural number (most significant first). -/
def digitsToNat (s : Bytes) : Nat := s.foldl (fun a b => a * 10 + (b - 48)) 0

/-- `10 ^ n` as a rational (kernel-computable). -/
def qpow10 (n : Nat) : ℚ := mkRat (10 ^ n) 1

/-- Model of Rust `str::parse::<f64>()` followed by the `is_finite` filter,
idealised over exact rationals: grammar `[+-]? digits* [. digits*] [eE [+-]
digits+]` with at least one mantissa digit and nothing left over. The
`inf`/`infinity`/`NaN` words accepted by Rust parse to non-finite values and
are discarded by the `is_finite` check, so here they are simply rejected. -/
def parseFiniteFloat (s : Bytes) : Option ℚ :=
  let (sgn, s1) : ℚ × Bytes :=
    match s with
    | 43 :: r => (1, r)
    | 45 :: r => (mkRat (-1) 1, r)
    | _ => (1, s)
  let ip := s1.takeWhile isDigit
  let r1 := s1.dropWhile isDigit
  let (fp, r2) : Bytes × Bytes :=
    match r1 with
    | 46 :: r => (r.takeWhile isDigit, r.dropWhile isDigit)
    | _ => ([], r1)
  if ip.isEmpty && fp.isEmpty then none
  else
    let base : ℚ := qadd (qofNat (digitsToNat ip)) (qdiv (qofNat (digitsToNat fp)) (qpow10 fp.length))
    match r2 with
    | [] => some (qmul sgn base)
    | e :: r3 =>
      if e ≠ 101 ∧ e ≠ 69 then none
      else
        let (eneg, r4) : Bool × Bytes :=
          match r3 with
          | 43 :: r => (false, r)
          | 45 :: r => (true, r)
          | _ => (false, r3)
        let ed := r4.takeWhile isDigit
        let r5 := r4.dropWhile isDigit
        if ed.isEmpty || !r5.isEmpty then none
        else if eneg then some (qmul sgn (qdiv base (qpow10 (digitsToNat ed))))
        else some (qmul sgn (qmul base (qpow10 (digitsToNat ed))))

/-- The prefix loop of `parse_prefix`: consume at most one sign and at most
one `$`, in either order. Returns the sign and the remaining bytes. -/
def stripSignDollar : Bytes → Bool → Bool → ℚ → ℚ × Bytes
  | [], _, _, sign => (sign, [])
  | b :: rest, seen_sign, seen_dollar, sign =>
    if (b == 43 || b == 45) && !seen_sign then
      stripSignDollar rest true seen_dollar (if b == 45 then mkRat (-1) 1 else 1)
    else if b == 36 && !seen_dollar then
      stripSignDollar rest seen_sign true sign
    else (sign, b :: rest)

/-- `parse_prefix`: sign/`$` prefix, then reject an empty remainder, a
remainder starting with a second sign, or any later `$`. -/
def parsePrefixPart (token : Bytes) : Option (ℚ × Bytes) :=
  let (sign, rest) := stripSignDollar token false false 1
  if rest.isEmpty then none
  else if rest.head? == some 43 || rest.head? == some 45 then none
  else if rest.contains 36 then none
  else some (sign, rest)

/-- `<[u8]>::split` on the comma byte (`int_part.split(|b| *b == b',')`). -/
def splitByComma : Bytes → List Bytes
  | [] => [[]]
  | b :: rest =>
    if b == 44 then [] :: splitByComma rest
    else
      match splitByComma rest with
      | g :: gs => (b :: g) :: gs
      | [] => [[b]]

/-- Integer part of a mantissa: everything before the first dot. -/
def mantissaIntPart (m : Bytes) : Bytes := m.takeWhile fun b => b ≠ 46

/-- Fractional part of a mantissa: everything after the first dot. -/
def mantissaFracPart (m : Bytes) : Bytes :=
  if m.contains 46 then (m.dropWhile fun b => b ≠ 46).tail else []

/-- `validate_commas`: at most one dot; no comma in the fractional part;
without commas the mantissa must hold a digit; with commas the integer part
must be a 1–3 digit group followed by exact 3-digit groups. -/
def validate_commas (mantissa : Bytes) : Bool :=
  if 2 ≤ mantissa.count 46 then false
  else
    let int_part := mantissaIntPart mantissa
    let frac_part := mantissaFracPart mantissa
    if frac_part.contains 44 then false
    else if !int_part.contains 44 then has_digit int_part || has_digit frac_part
    else
      match splitByComma int_part with
      | [] => false
      | first :: rest =>
        if first.isEmpty || 3 < first.length || !all_digits first then false
        else rest.all fun g => g.length == 3 && all_digits g

/-- `parse_number_core`: split at the first `e`/`E`, check the exponent tail,
validate commas, strip commas and hand the rest to the float parser. -/
def parse_number_core (token : Bytes) : Option ℚ :=
  if token.isEmpty then none
  else
    let cut := token.takeWhile fun b => b ≠ 101 ∧ b ≠ 69
    let expPart := token.dropWhile fun b => b ≠ 101 ∧ b ≠ 69
    let mantissa := cut
    if mantissa.isEmpty then none
    else if !expPart.isEmpty && (expPart.length < 2 || expPart.contains 44) then none
    else if !validate_commas mantissa then none
    else parseFiniteFloat ((mantissa.filter fun b => b ≠ 44) ++ expPart)

/-- The part of `parse_numeric` that runs inside the (optional) accounting
parentheses: prefix handling then the number core. -/
def parseInsideParens (token : Bytes) : Option ℚ :=
  if token.isEmpty then none
  else
    match parsePrefixPart token with
    | none => none
    | some (sign, rest) =>
      match parse_number_core rest with
      | none => none
      | some v => some (qmul sign v)

/-- `parse_numeric`: ASCII-trim, optional accounting parentheses forcing the
negated absolute value, sign/`$` prefix, mantissa with US thousands
separators, optional exponent; the result must be finite. -/
def parse_numeric (input : Bytes) : Option ℚ :=
  let trimmed := ascii_trim input
  if trimmed.isEmpty then none
  else
    let strip : Bool :=
      2 ≤ trimmed.length && trimmed.head? == some 40 && trimmed.getLast? == some 41
    let token := if strip then (trimmed.drop 1).dropLast else trimmed
    match parseInsideParens token with
    | none => none
    | some v => some (if strip then qneg (qabs v) else v)

/-! ## diff/coverage.rs -/

/-- An `f64` value as seen by `evaluate_coverage`: either a finite value
(idealised as an exact rational) or a non-finite one (NaN or ±∞, which the
code only ever inspects through `is_finite`). -/
inductive F64 where
  | fin (q : ℚ)
  | nonfinite
deriving DecidableEq

/-- `CoverageDecision` from `diff/coverage.rs`. -/
inductive CoverageDecision where
  | noChange
  | diffuse (top_k_coverage : ℚ)
  | explainable (cutoff : Nat) (coverage : ℚ)
deriving DecidableEq

/-- `iter().sum()` over contributions. -/
def qsum (l : List ℚ) : ℚ := l.foldl qadd 0

/-- The prefix loop of `evaluate_coverage`: accumulate contributions until
the running coverage reaches the threshold, returning the 1-based cutoff and
the achieved coverage. -/
def coverLoop (t threshold : ℚ) : List ℚ → ℚ → Nat → Option (Nat × ℚ)
  | [], _, _ => none
  | c :: rest, cumulative, k =>
    let cum2 := qadd cumulative c
    let cov := qdiv cum2 t
    if threshold ≤ cov then some (k + 1, cov)
    else coverLoop t threshold rest cum2 (k + 1)

/-- `evaluate_coverage`: NoChange when the total is non-finite or ≤ 0;
Diffuse when the summed top-K coverage is below the threshold; otherwise the
smallest prefix reaching the threshold. -/
def evaluate_coverage (contributions_desc : List ℚ) (total_change : F64)
    (threshold : ℚ) : CoverageDecision :=
  match total_change with
  | .nonfinite => .noChange
  | .fin t =>
    if t ≤ 0 then .noChange
    else
      let top_k_coverage := qdiv (qsum contributions_desc) t
      if top_k_coverage < threshold then .diffuse top_k_coverage
      else
        match coverLoop t threshold contributions_desc 0 0 with
        | some (k, cov) => .explainable k cov
        | none => .explainable contributions_desc.length top_k_coverage

/-! ## diff/tolerance.rs -/

/-- `ToleranceTracker`. -/
structure ToleranceTracker where
  tolerance : ℚ
  max_abs_delta : ℚ
deriving DecidableEq

/-- `ToleranceTracker::new`. -/
def ToleranceTracker.new (tolerance : ℚ) : ToleranceTracker := ⟨tolerance, 0⟩

/-- `ToleranceTracker::apply`: delta = new − old; track `|delta|` before
zeroing; the contribution is zeroed when `|delta| ≤ tolerance`. Returns the
updated tracker with (delta, contribution). -/
def ToleranceTracker.apply (t : ToleranceTracker) (old new : ℚ) :
    ToleranceTracker × ℚ × ℚ :=
  let delta := qsub new old
  let ab := qabs delta
  let t2 : ToleranceTracker :=
    { t with max_abs_delta := if t.max_abs_delta < ab then ab else t.max_abs_delta }
  let contribution := if ab ≤ t.tolerance then 0 else ab
  (t2, delta, contribution)

/-! ## diff/heap.rs -/

/-- `MAX_CONTRIBUTORS`. -/
def MAX_CONTRIBUTORS : Nat := 25

/-- `Contributor<T>`. -/
structure Contributor (α : Type) where
  id : α
  delta : ℚ
  contribution : ℚ
  tie_break : Nat
deriving DecidableEq

/-- The strict order of `impl Ord for HeapItem`: contribution ascending;
on equal contributions the HIGHER tie-break counter is the smaller item
(so it is ejected first from the min-heap). -/
def heapItemLtb {α : Type} (a b : Contributor α) : Bool :=
  a.contribution < b.contribution ||
    (a.contribution == b.contribution && b.tie_break < a.tie_break)

/-- The element `BinaryHeap::pop` removes: a minimum under the `HeapItem`
order (the first minimal element of the list). -/
def heapMinPick {α : Type} : Contributor α → List (Contributor α) → Contributor α
  | m, [] => m
  | m, c :: rest => heapMinPick (if heapItemLtb c m then c else m) rest

/-- `TopContributors<T>`: the bounded min-heap, modelled as the multiset of
its elements. -/
structure TopContributors (α : Type) where
  max : Nat
  heap : List (Contributor α)
deriving DecidableEq

/-- `TopContributors::new`. -/
def TopContributors.new (α : Type) (max : Nat) : TopContributors α := ⟨max, []⟩

/-- `TopContributors::push`: insert, then eject the minimum when the bound
is exceeded. -/
def TopContributors.push {α : Type} [DecidableEq α] (t : TopContributors α)
    (c : Contributor α) : TopContributors α :=
  if t.max = 0 then t
  else
    let l := c :: t.heap
    if t.max < l.length then { t with heap := l.erase (heapMinPick c t.heap) }
    else { t with heap := l }

/-- `DiffAccumulator<T>`. -/
structure DiffAccumulator (α : Type) where
  total_change : ℚ
  max_abs_delta : ℚ
  top : TopContributors α
deriving DecidableEq

/-- `DiffAccumulator::new`. -/
def DiffAccumulator.new (α : Type) (max : Nat) : DiffAccumulator α :=
  ⟨0, 0, TopContributors.new α max⟩

/-- `DiffAccumulator::observe`: track max |delta|, add the contribution to
the total, and push only strictly positive contributions. -/
def DiffAccumulator.observe {α : Type} [DecidableEq α] (acc : DiffAccumulator α)
    (id : α) (delta contribution : ℚ) (tie_break : Nat) : DiffAccumulator α :=
  let ab := qabs delta
  let acc1 :=
    { acc with max_abs_delta := if acc.max_abs_delta < ab then ab else acc.max_abs_delta }
  let acc2 := { acc1 with total_change := qadd acc1.total_change contribution }
  if 0 < contribution then
    { acc2 with top := acc2.top.push ⟨id, delta, contribution, tie_break⟩ }
  else acc2

/-! ## diff/order.rs -/

/-- `RowId`: 1-based row index or raw key bytes. -/
inductive RowId where
  | rowIndex (i : Nat)
  | key (bytes : Bytes)
deriving DecidableEq

/-- Lexicographic strict order on byte strings (`Vec<u8>` `Ord`). -/
def byteLtb : Bytes → Bytes → Bool
  | [], [] => false
  | [], _ :: _ => true
  | _ :: _, [] => false
  | a :: as, b :: bs => a < b || (a == b && byteLtb as bs)

/-- `impl Ord for RowId`: row indices sort before keys. -/
def RowId.ltb : RowId → RowId → Bool
  | .rowIndex a, .rowIndex b => a < b
  | .key a, .key b => byteLtb a b
  | .rowIndex _, .key _ => true
  | .key _, .rowIndex _ => false

/-- `CellId`: (row id, column bytes). -/
structure CellId where
  row_id : RowId
  column : Bytes
deriving DecidableEq

/-- `impl Ord for CellId`: row id first, then column bytes. -/
def CellId.ltb (a b : CellId) : Bool :=
  RowId.ltb a.row_id b.row_id || (a.row_id == b.row_id && byteLtb a.column b.column)

/-- The comparator of `sort_contributors`: contribution descending, ties by
cell id ascending (as a reflexive total comparator for insertion sort). -/
def contribBefore (a b : Contributor CellId) : Bool :=
  b.contribution < a.contribution ||
    (a.contribution == b.contribution && (CellId.ltb a.id b.id || a.id == b.id))

/-- Insertion step for `sort_contributors`. -/
def insertContributor (c : Contributor CellId) :
    List (Contributor CellId) → List (Contributor CellId)
  | [] => [c]
  | x :: xs => if contribBefore c x then c :: x :: xs else x :: insertContributor c xs

/-- `sort_contributors`: contribution descending, ties by cell id ascending. -/
def sort_contributors : List (Contributor CellId) → List (Contributor CellId)
  | [] => []
  | x :: xs => insertContributor x (sort_contributors xs)

/-- Sort byte strings ascending (insertion sort over `byteLtb`). -/
def insertBytes (b : Bytes) : List Bytes → List Bytes
  | [] => [b]
  | x :: xs => if byteLtb b x || b == x then b :: x :: xs else x :: insertBytes b xs

/-- `sort` on raw byte strings (`Vec<Vec<u8>>::sort`), ascending. -/
def sortBytes : List Bytes → List Bytes
  | [] => []
  | x :: xs => insertBytes x (sortBytes xs)

/-! ## numeric/columns.rs -/

/-- `CommonColumn`. -/
structure CommonColumn where
  name : Bytes
  old_index : Nat
  new_index : Nat
deriving DecidableEq

/-- `ColumnIntersection`. -/
structure ColumnIntersection where
  common : List CommonColumn
  old_only : List Bytes
  new_only : List Bytes
deriving DecidableEq

/-- `Side` (file side for error reporting). -/
inductive Side where
  | old
  | new
deriving DecidableEq

/-- `MixedTypesError<RowId>`. -/
structure MixedTypesError (ρ : Type) where
  row_id : ρ
  column : Bytes
  side : Side
  value : Bytes
deriving DecidableEq

/-- `MissingnessError<RowId>`. -/
structure MissingnessError (ρ : Type) where
  row_id : ρ
  column : Bytes
  missing_side : Side
  present_value : Bytes
deriving DecidableEq

/-- `ColumnTypingError<RowId>`. -/
inductive ColumnTypingError (ρ : Type) where
  | mixedTypes (e : MixedTypesError ρ)
  | missingness (e : MissingnessError ρ)
deriving DecidableEq

variable {ρ : Type}

/-- First observed non-numeric entry of a column. -/
structure NonNumeric (ρ : Type) where
  row_id : ρ
  side : Side
  value : Bytes
deriving DecidableEq

/-- `ColumnState<RowId>`. -/
structure ColumnState (ρ : Type) where
  column : CommonColumn
  saw_numeric : Bool
  first_non_numeric : Option (NonNumeric ρ)
deriving DecidableEq

/-- `ColumnState::new`. -/
def ColumnState.init (column : CommonColumn) : ColumnState ρ := ⟨column, false, none⟩

/-- `ColumnState::record_non_numeric` (keeps only the first). -/
def ColumnState.record_non_numeric (st : ColumnState ρ) (row_id : ρ) (side : Side)
    (value : Bytes) : ColumnState ρ :=
  if st.first_non_numeric.isNone then
    { st with first_non_numeric := some ⟨row_id, side, value⟩ }
  else st

/-- Field access `self.get(index)…unwrap_or(b"")`. -/
def fieldOf (r : List Bytes) (i : Nat) : Bytes := r.getD i []

/-- One (old,new) cell pair of one column in `detect_numeric_columns`:
both missing → skip; one missing and the other numeric → Missingness;
numeric evidence conflicting with non-numeric evidence → MixedTypes (the
first recorded non-numeric entry when both sides are numeric now). -/
def processPair (st : ColumnState ρ) (row_id : ρ) (old_raw new_raw : Bytes) :
    Except (ColumnTypingError ρ) (ColumnState ρ) :=
  let old_missing := is_missing_token old_raw
  let new_missing := is_missing_token new_raw
  if old_missing && new_missing then .ok st
  else if old_missing || new_missing then
    let present_raw := if old_missing then new_raw else old_raw
    let present_side := if old_missing then Side.new else Side.old
    let missing_side := if old_missing then Side.old else Side.new
    if (parse_numeric present_raw).isSome then
      .error (.missingness ⟨row_id, st.column.name, missing_side, present_raw⟩)
    else if st.saw_numeric then
      .error (.mixedTypes ⟨row_id, st.column.name, present_side, present_raw⟩)
    else .ok (st.record_non_numeric row_id present_side present_raw)
  else
    match (parse_numeric old_raw).isSome, (parse_numeric new_raw).isSome with
    | true, true =>
      match st.first_non_numeric with
      | some nn => .error (.mixedTypes ⟨nn.row_id, st.column.name, nn.side, nn.value⟩)
      | none => .ok { st with saw_numeric := true }
    | true, false =>
      if st.saw_numeric then
        .error (.mixedTypes ⟨row_id, st.column.name, Side.new, new_raw⟩)
      else .ok (st.record_non_numeric row_id Side.new new_raw)
    | false, true =>
      if st.saw_numeric then
        .error (.mixedTypes ⟨row_id, st.column.name, Side.old, old_raw⟩)
      else .ok (st.record_non_numeric row_id Side.old old_raw)
    | false, false =>
      if st.saw_numeric then
        .error (.mixedTypes ⟨row_id, st.column.name, Side.old, old_raw⟩)
      else .ok (st.record_non_numeric row_id Side.old old_raw)

/-- One aligned row: sweep every column state in order. -/
def processRow (states : List (ColumnState ρ)) (row_id : ρ) (old new : List Bytes) :
    Except (ColumnTypingError ρ) (List (ColumnState ρ)) :=
  states.mapM fun st =>
    processPair st row_id (fieldOf old st.column.old_index) (fieldOf new st.column.new_index)

/-- `detect_numeric_columns`: sweep common columns × aligned rows once; the
result is the subset of columns whose `saw_numeric` flag is set. -/
def detect_numeric_columns (columns : List CommonColumn)
    (rows : List (ρ × List Bytes × List Bytes)) :
    Except (ColumnTypingError ρ) (List CommonColumn) := do
  let init := columns.map (fun c => ColumnState.init (ρ := ρ) c)
  let final ← rows.foldlM (fun sts r => processRow sts r.1 r.2.1 r.2.2) init
  pure (((final.filter (·.saw_numeric)).map (·.column)))

/-- Last index of `name` in `hs` (`HashMap` insertion overwrites, so lookups
see the last occurrence). -/
def lastIdxOf (hs : List Bytes) (name : Bytes) : Option Nat :=
  (List.range hs.length).foldl
    (fun acc i => if hs.getD i [] == name then some i else acc) none

/-- `intersect_headers` (key column excluded from both sides). -/
def intersect_headers (old_headers new_headers : List Bytes) (key : Option Bytes) :
    ColumnIntersection :=
  let k := key.getD []
  let common := (old_headers.enum.filterMap fun p =>
    if p.2 == k then none
    else
      match lastIdxOf new_headers p.2 with
      | some j => some (CommonColumn.mk p.2 p.1 j)
      | none => none)
  let old_only := old_headers.filter fun n => !(n == k) && (lastIdxOf new_headers n).isNone
  let new_only := new_headers.filter fun n => !(n == k) && !(decide (n ∈ old_headers))
  ⟨common, old_only, new_only⟩

/-! ## alignment/key_discovery.rs -/

/-- `CandidateKind`. -/
inductive CandidateKind where
  | perfect
  | joinable
deriving DecidableEq

/-- `KeyCandidate`. -/
structure KeyCandidate where
  name : Bytes
  old_index : Nat
  new_index : Nat
  kind : CandidateKind
deriving DecidableEq

/-- `ColumnStats`: observed trimmed values (as a set), empty flag, dup flag. -/
structure ColumnStats where
  values : List Bytes
  has_empty : Bool
  has_dup : Bool
deriving DecidableEq

/-- `ColumnStats::observe`. -/
def ColumnStats.observe (s : ColumnStats) (raw : Bytes) : ColumnStats :=
  let trimmed := ascii_trim raw
  if trimmed.isEmpty then { s with has_empty := true }
  else if trimmed ∈ s.values then { s with has_dup := true }
  else { s with values := trimmed :: s.values }

/-- `ColumnStats::is_joinable`. -/
def ColumnStats.joinable (s : ColumnStats) : Bool := !s.has_empty && !s.has_dup

/-- `HashSet` equality: the two observed value sets are equal. -/
def valueSetEq (a b : List Bytes) : Bool :=
  a.all (fun v => decide (v ∈ b)) && b.all (fun v => decide (v ∈ a))

/-- Statistics of one shared column over one side. -/
def columnStatsOf (rows : List (List Bytes)) (idx : Nat) : ColumnStats :=
  rows.foldl (fun s r => s.observe (fieldOf r idx)) ⟨[], false, false⟩

/-- `discover_key_candidates`: shared header names in old-header order
(new index found by `position`, i.e. first match); each must be joinable on
both sides; perfect candidates (equal value sets) are listed first. -/
def discover_key_candidates (old_headers new_headers : List Bytes)
    (old_rows new_rows : List (List Bytes)) : List KeyCandidate :=
  let works := old_headers.enum.filterMap fun p =>
    match new_headers.findIdx? (fun n => n == p.2) with
    | some j => some (p.2, p.1, j)
    | none => none
  let both := works.filterMap fun w =>
    let os := columnStatsOf old_rows w.2.1
    let ns := columnStatsOf new_rows w.2.2
    if os.joinable && ns.joinable then some (w, os, ns) else none
  let perfect := both.filterMap fun w =>
    if valueSetEq w.2.1.values w.2.2.values then
      some (KeyCandidate.mk w.1.1 w.1.2.1 w.1.2.2 .perfect)
    else none
  let joinableRest := both.filterMap fun w =>
    if valueSetEq w.2.1.values w.2.2.values then none
    else some (KeyCandidate.mk w.1.1 w.1.2.1 w.1.2.2 .joinable)
  perfect ++ joinableRest

/-! ## alignment/shuffle.rs -/

/-- `ShuffleDetection`. -/
structure ShuffleDetection where
  reordered : Bool
  suggested_keys : List Bytes
deriving DecidableEq

/-- `key_sequence`: the ASCII-trimmed values of one column, in row order. -/
def key_sequence (rows : List (List Bytes)) (index : Nat) : List Bytes :=
  rows.map fun r => ascii_trim (fieldOf r index)

/-- `has_reorder` for one candidate. -/
def has_reorder (c : KeyCandidate) (old_rows new_rows : List (List Bytes)) : Bool :=
  !(key_sequence old_rows c.old_index == key_sequence new_rows c.new_index)

/-- `detect_shuffle`: reordered iff some perfect candidate's trimmed value
sequence differs between old and new; suggestions are the first 3 candidate
names. -/
def detect_shuffle (old_headers new_headers : List Bytes)
    (old_rows new_rows : List (List Bytes)) : ShuffleDetection :=
  let candidates := discover_key_candidates old_headers new_headers old_rows new_rows
  let suggested := (candidates.take 3).map (·.name)
  ⟨candidates.any fun c => c.kind == .perfect && has_reorder c old_rows new_rows,
    suggested⟩

/-! ## alignment/key_join.rs -/

/-- `KeyEntry`. -/
structure KeyEntry where
  record_number : Nat
  fields : List Bytes
deriving DecidableEq

/-- The key map, modelled as an association list in insertion order (the
`HashMap` is only read through lookup and sorted key listings). -/
abbrev KeyMapEntries := List (Bytes × KeyEntry)

/-- `HashMap::get`. -/
def lookupKey (entries : KeyMapEntries) (k : Bytes) : Option KeyEntry :=
  (entries.find? fun p => p.1 == k).map (·.2)

/-- `KeyJoinError`. -/
inductive KeyJoinError where
  | emptyKey (record_number : Nat)
  | duplicateKey (key : Bytes) (first_record second_record : Nat)
  | keySetMismatch (missing_count extra_count : Nat)
      (missing_samples extra_samples : List Bytes)
deriving DecidableEq

/-- `is_blank_owned_record`: every field trims to empty. -/
def is_blank_owned_record (r : List Bytes) : Bool :=
  r.all fun f => (ascii_trim f).isEmpty

/-- `KeyAlignedRow`. -/
structure KeyAlignedRow where
  key : Bytes
  old : KeyEntry
  new : KeyEntry
deriving DecidableEq

/-- The loop of `build_key_map`, carrying the entries built so far. -/
def build_key_map_loop (key_index : Nat) :
    KeyMapEntries → List (Nat × List Bytes) → Except KeyJoinError KeyMapEntries
  | entries, [] => .ok entries
  | entries, (record_number, record) :: rest =>
    if is_blank_owned_record record then build_key_map_loop key_index entries rest
    else
      let key := ascii_trim (fieldOf record key_index)
      if key.isEmpty then .error (.emptyKey record_number)
      else
        match lookupKey entries key with
        | some existing =>
          .error (.duplicateKey key existing.record_number record_number)
        | none => build_key_map_loop key_index (entries ++ [(key, ⟨record_number, record⟩)]) rest

/-- `build_key_map`. -/
def build_key_map (records : List (Nat × List Bytes)) (key_index : Nat) :
    Except KeyJoinError KeyMapEntries :=
  build_key_map_loop key_index [] records

/-- `compare_key_sets`: keys of either side absent from the other, sorted by
raw bytes; counts are taken before truncating the samples to 10. -/
def compare_key_sets (old_entries new_entries : KeyMapEntries) : Option KeyJoinError :=
  let missing := (old_entries.map (·.1)).filter fun k => (lookupKey new_entries k).isNone
  let extra := (new_entries.map (·.1)).filter fun k => (lookupKey old_entries k).isNone
  if missing.isEmpty && extra.isEmpty then none
  else
    let ms := sortBytes missing
    let es := sortBytes extra
    some (.keySetMismatch ms.length es.length (ms.take 10) (es.take 10))

/-- `join_key_maps`: after the key sets match, emit aligned rows in
ascending key-byte order. -/
def join_key_maps (old_entries new_entries : KeyMapEntries) :
    Except KeyJoinError (List KeyAlignedRow) :=
  match compare_key_sets old_entries new_entries with
  | some e => .error e
  | none =>
    .ok ((sortBytes (old_entries.map (·.1))).filterMap fun k =>
      match lookupKey old_entries k, lookupKey new_entries k with
      | some o, some n => some ⟨k, o, n⟩
      | _, _ => none)

/-! ## format/ident_json.rs and format/ident_human.rs -/

/-- `contains_ascii_control`: any byte ≤ 0x1F or = 0x7F. -/
def contains_ascii_control (bs : Bytes) : Bool :=
  bs.any fun b => b ≤ 31 || b == 127

/-- UTF-8 continuation byte (0x80–0xBF). -/
def isUtf8Cont (b : Nat) : Bool := 128 ≤ b && b ≤ 191

/-- Validity of UTF-8 per `std::str::from_utf8` (RFC 3629: no overlong
forms, no surrogates, nothing above U+10FFFF). -/
def is_valid_utf8 : Bytes → Bool
  | [] => true
  | b :: rest =>
    if b ≤ 127 then is_valid_utf8 rest
    else if 194 ≤ b && b ≤ 223 then
      match rest with
      | c1 :: r => isUtf8Cont c1 && is_valid_utf8 r
      | [] => false
    else if b == 224 then
      match rest with
      | c1 :: c2 :: r => (160 ≤ c1 && c1 ≤ 191) && isUtf8Cont c2 && is_valid_utf8 r
      | _ => false
    else if 225 ≤ b && b ≤ 236 then
      match rest with
      | c1 :: c2 :: r => isUtf8Cont c1 && isUtf8Cont c2 && is_valid_utf8 r
      | _ => false
    else if b == 237 then
      match rest with
      | c1 :: c2 :: r => (128 ≤ c1 && c1 ≤ 159) && isUtf8Cont c2 && is_valid_utf8 r
      | _ => false
    else if 238 ≤ b && b ≤ 239 then
      match rest with
      | c1 :: c2 :: r => isUtf8Cont c1 && isUtf8Cont c2 && is_valid_utf8 r
      | _ => false
    else if b == 240 then
      match rest with
      | c1 :: c2 :: c3 :: r =>
        (144 ≤ c1 && c1 ≤ 191) && isUtf8Cont c2 && isUtf8Cont c3 && is_valid_utf8 r
      | _ => false
    else if 241 ≤ b && b ≤ 243 then
      match rest with
      | c1 :: c2 :: c3 :: r =>
        isUtf8Cont c1 && isUtf8Cont c2 && isUtf8Cont c3 && is_valid_utf8 r
      | _ => false
    else if b == 244 then
      match rest with
      | c1 :: c2 :: c3 :: r =>
        (128 ≤ c1 && c1 ≤ 143) && isUtf8Cont c2 && isUtf8Cont c3 && is_valid_utf8 r
      | _ => false
    else false

/-- One hex digit (lowercase table `0123456789abcdef`). -/
def hex_digit (n : Nat) : Nat := if n < 10 then 48 + n else 87 + n

/-- Hex expansion of a byte string (without the `hex:` marker). -/
def hex_bytes (bs : Bytes) : Bytes :=
  bs.flatMap fun b => [hex_digit (b / 16), hex_digit (b % 16)]

/-- The bytes of `"u8:"`. -/
def u8Marker : Bytes := [117, 56, 58]

/-- The bytes of `"hex:"`. -/
def hexMarker : Bytes := [104, 101, 120, 58]

/-- `encode_identifier_json` (output modelled as its UTF-8 bytes):
`u8:<utf8>` when valid UTF-8 with no ASCII control byte, else
`hex:<lowercase hex>`. -/
def encode_identifier_json (bs : Bytes) : Bytes :=
  if is_valid_utf8 bs && !contains_ascii_control bs then u8Marker ++ bs
  else hexMarker ++ hex_bytes bs

/-- Byte-string prefix test (`str::starts_with` for ASCII needles). -/
def bytesStartWith : Bytes → Bytes → Bool
  | _, [] => true
  | [], _ :: _ => false
  | b :: bs, n :: ns => b == n && bytesStartWith bs ns

/-- `render_identifier_human` (output modelled as its UTF-8 bytes): bare
UTF-8 when valid, control-free and unambiguous; `u8:`-prefixed when it
starts with `u8:`/`hex:`; hex otherwise. -/
def render_identifier_human (bs : Bytes) : Bytes :=
  if is_valid_utf8 bs then
    if contains_ascii_control bs then hexMarker ++ hex_bytes bs
    else if bytesStartWith bs u8Marker || bytesStartWith bs hexMarker then u8Marker ++ bs
    else bs
  else hexMarker ++ hex_bytes bs

/-! ## cli/exit.rs -/

/-- `Outcome`. -/
inductive Outcome where
  | noRealChange
  | realChange
  | refusal
deriving DecidableEq

/-- `exit_code`. -/
def exit_code : Outcome → Nat
  | .noRealChange => 0
  | .realChange => 1
  | .refusal => 2

/-! ## orchestrator.rs — the diff pass and verdict gating (row-order mode) -/

/-- Pipeline outcome of `run_diff` (rendering stripped to the decision). -/
inductive DiffOutcome where
  | typingRefusal (e : ColumnTypingError Nat)
  | noNumeric
  | needKey (suggested_keys : List Bytes)
  | noRealChange
  | diffuse (top_k_coverage : ℚ)
  | realChange (cutoff : Nat) (coverage : ℚ)
deriving DecidableEq

/-- State of the diff sweep: accumulator, tolerance tracker, tie counter. -/
structure DiffState where
  acc : DiffAccumulator CellId
  tol : ToleranceTracker
  tie : Nat
deriving DecidableEq

/-- One numeric cell of the row-order diff pass: skip both-missing and
non-parsing pairs, otherwise apply the tolerance and observe. -/
def diffCell (st : DiffState) (rowIdx : Nat) (col : CommonColumn)
    (o n : List Bytes) : DiffState :=
  let old_raw := fieldOf o col.old_index
  let new_raw := fieldOf n col.new_index
  if is_missing_token old_raw && is_missing_token new_raw then st
  else
    match parse_numeric old_raw, parse_numeric new_raw with
    | some ov, some nv =>
      let r := st.tol.apply ov nv
      let acc2 := st.acc.observe ⟨.rowIndex (rowIdx + 1), col.name⟩ r.2.1 r.2.2 st.tie
      ⟨acc2, r.1, st.tie + 1⟩
    | _, _ => st

/-- The row-major diff sweep over aligned row pairs × numeric columns. -/
def diffRows (tolerance : ℚ) (numeric_columns : List CommonColumn)
    (pairs : List (List Bytes × List Bytes)) : DiffState :=
  pairs.enum.foldl
    (fun st p => numeric_columns.foldl (fun st2 col => diffCell st2 p.1 col p.2.1 p.2.2) st)
    ⟨DiffAccumulator.new CellId MAX_CONTRIBUTORS, ToleranceTracker.new tolerance, 0⟩

/-- The verdict for a coverage decision (`run_diff`'s final match: NoChange
renders NO REAL CHANGE, Diffuse renders the E_DIFFUSE refusal, Explainable
renders REAL CHANGE). -/
def decisionOutcome : CoverageDecision → Outcome
  | .noChange => .noRealChange
  | .diffuse _ => .refusal
  | .explainable _ _ => .realChange

/-- `run_diff` in row-order alignment, from normalized headers and
blank-filtered records to the decision: column typing, the NoNumeric guard,
the diff sweep, the shuffle guard (only when total_change > 0), and the
coverage decision. -/
def run_diff_row_order (old_headers new_headers : List Bytes)
    (old_rows new_rows : List (List Bytes)) (threshold tolerance : ℚ) : DiffOutcome :=
  let inter := intersect_headers old_headers new_headers none
  let rows := (old_rows.zip new_rows).enum.map fun p => (p.1 + 1, p.2.1, p.2.2)
  match detect_numeric_columns inter.common rows with
  | .error e => .typingRefusal e
  | .ok cols =>
    if cols.isEmpty then .noNumeric
    else
      let st := diffRows tolerance cols (old_rows.zip new_rows)
      let contributions := (sort_contributors st.acc.top.heap).map (·.contribution)
      if 0 < st.acc.total_change ∧
          (detect_shuffle old_headers new_headers old_rows new_rows).reordered then
        .needKey (detect_shuffle old_headers new_headers old_rows new_rows).suggested_keys
      else
        match evaluate_coverage contributions (.fin st.acc.total_change) threshold with
        | .noChange => .noRealChange
        | .diffuse c => .diffuse c
        | .explainable k cov => .realChange k cov

/-- The side whose value is present, as reported by `map_column_error` for a
Missingness refusal (`file = present_side`). -/
def missingnessFile (e : MissingnessError ρ) : Side :=
  match e.missing_side with
  | .old => .new
  | .new => .old

/-! ## Bridge lemmas for the computable rational operations -/

theorem qadd_eq (a b : ℚ) : qadd a b = a + b := by
  have ha : (a.den : ℚ) ≠ 0 := Nat.cast_ne_zero.mpr a.den_nz
  have hb : (b.den : ℚ) ≠ 0 := Nat.cast_ne_zero.mpr b.den_nz
  rw [qadd, Rat.mkRat_eq_div]
  push_cast
  conv_rhs => rw [← Rat.num_div_den a, ← Rat.num_div_den b]
  rw [div_add_div _ _ ha hb]
  ring_nf

theorem qsub_eq (a b : ℚ) : qsub a b = a - b := by
  have ha : (a.den : ℚ) ≠ 0 := Nat.cast_ne_zero.mpr a.den_nz
  have hb : (b.den : ℚ) ≠ 0 := Nat.cast_ne_zero.mpr b.den_nz
  rw [qsub, Rat.mkRat_eq_div]
  push_cast
  conv_rhs => rw [← Rat.num_div_den a, ← Rat.num_div_den b]
  rw [div_sub_div _ _ ha hb]
  ring_nf

theorem qmul_eq (a b : ℚ) : qmul a b = a * b := by
  rw [qmul, Rat.mkRat_eq_div]
  push_cast
  conv_rhs => rw [← Rat.num_div_den a, ← Rat.num_div_den b]
  rw [div_mul_div_comm]

theorem qneg_eq (a : ℚ) : qneg a = -a := by
  rw [qneg, Rat.mkRat_eq_div]
  push_cast
  rw [neg_div, Rat.num_div_den]

theorem qinv_eq (b : ℚ) : qinv b = b⁻¹ := by
  rcases lt_trichotomy b.num 0 with h | h | h
  · have ht : (((-b.num).toNat : ℕ) : ℚ) = -(b.num : ℚ) := by
      exact_mod_cast congrArg (fun z : ℤ => (z : ℚ))
        (Int.toNat_of_nonneg (by omega : (0:ℤ) ≤ -b.num))
    rw [qinv, if_neg (not_le.mpr h), Rat.mkRat_eq_div]
    push_cast
    rw [ht, neg_div_neg_eq, ← inv_div, Rat.num_div_den]
  · have hb : b = 0 := Rat.num_eq_zero.mp h
    rw [qinv, if_pos (le_of_eq h.symm), h, hb]
    simp [Rat.mkRat_eq_div]
  · have ht : ((b.num.toNat : ℕ) : ℚ) = (b.num : ℚ) := by
      exact_mod_cast congrArg (fun z : ℤ => (z : ℚ)) (Int.toNat_of_nonneg (le_of_lt h))
    rw [qinv, if_pos (le_of_lt h), Rat.mkRat_eq_div]
    push_cast
    rw [ht, ← inv_div, Rat.num_div_den]

theorem qdiv_eq (a b : ℚ) : qdiv a b = a / b := by
  rw [qdiv, qmul_eq, qinv_eq, div_eq_mul_inv]

theorem qabs_eq (a : ℚ) : qabs a = |a| := by
  rw [qabs]
  rcases lt_or_le a.num 0 with h | h
  · have hlt : a < 0 := not_le.mp fun hc => absurd (Rat.num_nonneg.mpr hc) (not_le.mpr h)
    rw [if_pos h, qneg_eq, abs_of_neg hlt]
  · rw [if_neg (not_lt.mpr h), abs_of_nonneg (Rat.num_nonneg.mp h)]

theorem qofNat_eq (n : Nat) : qofNat n = (n : ℚ) := by
  rw [qofNat, Rat.mkRat_eq_div]
  simp

/-! ## Claims -/

/-- C1 counterexample: feeding the contributions 10, 5, 3 with total_change
18 and threshold 0.9 into `evaluate_coverage` yields REAL CHANGE
(`Explainable` with cutoff 3 and coverage 1 = 18/18), not the claimed
Diffuse refusal with coverage 15/18. -/
theorem c1_counterexample :
    evaluate_coverage [10, 5, 3] (.fin 18) (mkRat 9 10) = .explainable 3 1 ∧
    evaluate_coverage [10, 5, 3] (.fin 18) (mkRat 9 10) ≠ .diffuse (mkRat 5 6) ∧
    decisionOutcome (evaluate_coverage [10, 5, 3] (.fin 18) (mkRat 9 10)) = .realChange ∧
    exit_code (decisionOutcome (evaluate_coverage [10, 5, 3] (.fin 18) (mkRat 9 10))) = 1 := by
  decide

/-- C1 (amended): observing the contributions 10, 5, 3 under a top-K bound
of 2 retains only [10, 5]; with total_change 18 and threshold 0.9 the
coverage decision is the Diffuse refusal with top_k_coverage = 5/6 ≈ 0.8333
and exit code 2 (this is the setting of the repository's own diffuse test). -/
theorem c1_theorem :
    (((((DiffAccumulator.new CellId 2).observe ⟨.rowIndex 1, [97]⟩ 10 10 0).observe
        ⟨.rowIndex 2, [98]⟩ 5 5 1).observe ⟨.rowIndex 3, [99]⟩ 3 3 2).total_change = 18) ∧
    ((sort_contributors ((((DiffAccumulator.new CellId 2).observe ⟨.rowIndex 1, [97]⟩ 10 10 0).observe
        ⟨.rowIndex 2, [98]⟩ 5 5 1).observe ⟨.rowIndex 3, [99]⟩ 3 3 2).top.heap).map
        (·.contribution) = [10, 5]) ∧
    evaluate_coverage [10, 5] (.fin 18) (mkRat 9 10) = .diffuse (mkRat 5 6) ∧
    decisionOutcome (.diffuse (mkRat 5 6)) = .refusal ∧
    exit_code (decisionOutcome (.diffuse (mkRat 5 6))) = 2 := by
  decide

theorem qsub_self (x : ℚ) : qsub x x = 0 := by rw [qsub_eq, sub_self]

theorem qabs_zero : qabs 0 = 0 := by rw [qabs_eq, abs_zero]

theorem qadd_zero (x : ℚ) : qadd x 0 = x := by rw [qadd_eq, add_zero]

theorem ite_lt_eq_max (a b : ℚ) : (if a < b then b else a) = max a b := by
  rcases lt_or_le a b with h | h
  · rw [if_pos h, max_eq_right h.le]
  · rw [if_neg (not_lt.mpr h), max_eq_left h]

theorem mem_zip_self {γ : Type} (l : List γ) : ∀ p ∈ l.zip l, p.1 = p.2 := by
  induction l with
  | nil => intro p hp; cases hp
  | cons x xs ih =>
    intro p hp
    rw [List.zip_cons_cons, List.mem_cons] at hp
    rcases hp with heq | hmem
    · rw [heq]
    · exact ih p hmem

theorem diffCell_zero (st : DiffState) (i : Nat) (col : CommonColumn) (o : List Bytes)
    (hix : col.old_index = col.new_index)
    (h1 : st.acc.total_change = 0) (h2 : st.acc.max_abs_delta = 0)
    (h3 : st.acc.top.heap = []) (h4 : st.tol.tolerance = 0)
    (h5 : st.tol.max_abs_delta = 0) :
    (diffCell st i col o o).acc.total_change = 0 ∧
    (diffCell st i col o o).acc.max_abs_delta = 0 ∧
    (diffCell st i col o o).acc.top.heap = [] ∧
    (diffCell st i col o o).tol.tolerance = 0 ∧
    (diffCell st i col o o).tol.max_abs_delta = 0 := by
  obtain ⟨⟨tc, mad, tmax, theap⟩, ⟨tl, tm⟩, tie⟩ := st
  dsimp at h1 h2 h3 h4 h5
  subst h1; subst h2; subst h3; subst h4; subst h5
  unfold diffCell
  rw [← hix]
  cases hmiss : is_missing_token (fieldOf o col.old_index) with
  | true => simp [hmiss]
  | false =>
    simp only [hmiss, Bool.and_self, Bool.false_eq_true, if_false]
    cases hpn : parse_numeric (fieldOf o col.old_index) with
    | none => simp
    | some v =>
      simp [ToleranceTracker.apply, DiffAccumulator.observe, TopContributors.push,
        qsub_self, qabs_zero, qadd_zero]

theorem diffRowFold_zero (st : DiffState) (i : Nat) (o n : List Bytes) (hon : o = n)
    (cols : List CommonColumn) (hix : ∀ c ∈ cols, c.old_index = c.new_index)
    (h1 : st.acc.total_change = 0) (h2 : st.acc.max_abs_delta = 0)
    (h3 : st.acc.top.heap = []) (h4 : st.tol.tolerance = 0)
    (h5 : st.tol.max_abs_delta = 0) :
    (cols.foldl (fun st2 col => diffCell st2 i col o n) st).acc.total_change = 0 ∧
    (cols.foldl (fun st2 col => diffCell st2 i col o n) st).acc.max_abs_delta = 0 ∧
    (cols.foldl (fun st2 col => diffCell st2 i col o n) st).acc.top.heap = [] ∧
    (cols.foldl (fun st2 col => diffCell st2 i col o n) st).tol.tolerance = 0 ∧
    (cols.foldl (fun st2 col => diffCell st2 i col o n) st).tol.max_abs_delta = 0 := by
  subst hon
  induction cols generalizing st with
  | nil => exact ⟨h1, h2, h3, h4, h5⟩
  | cons c cs ih =>
    have hc := diffCell_zero st i c o (hix c (List.mem_cons_self c cs)) h1 h2 h3 h4 h5
    exact ih (diffCell st i c o o) (fun x hx => hix x (List.mem_cons_of_mem c hx))
      hc.1 hc.2.1 hc.2.2.1 hc.2.2.2.1 hc.2.2.2.2

theorem diffRows_zero (rows : List (List Bytes)) (cols : List CommonColumn)
    (hix : ∀ c ∈ cols, c.old_index = c.new_index) :
    (diffRows 0 cols (rows.zip rows)).acc.total_change = 0 ∧
    (diffRows 0 cols (rows.zip rows)).acc.max_abs_delta = 0 ∧
    (diffRows 0 cols (rows.zip rows)).acc.top.heap = [] := by
  unfold diffRows
  have main : ∀ (ps : List (Nat × List Bytes × List Bytes)) (st : DiffState),
      (∀ p ∈ ps, p.2.1 = p.2.2) →
      st.acc.total_change = 0 → st.acc.max_abs_delta = 0 → st.acc.top.heap = [] →
      st.tol.tolerance = 0 → st.tol.max_abs_delta = 0 →
      (ps.foldl (fun st p => cols.foldl
        (fun st2 col => diffCell st2 p.1 col p.2.1 p.2.2) st) st).acc.total_change = 0 ∧
      (ps.foldl (fun st p => cols.foldl
        (fun st2 col => diffCell st2 p.1 col p.2.1 p.2.2) st) st).acc.max_abs_delta = 0 ∧
      (ps.foldl (fun st p => cols.foldl
        (fun st2 col => diffCell st2 p.1 col p.2.1 p.2.2) st) st).acc.top.heap = [] := by
    intro ps
    induction ps with
    | nil => intro st _ a b c _ _; exact ⟨a, b, c⟩
    | cons p ps ih =>
      intro st hps a b c d e
      have hrow := diffRowFold_zero st p.1 p.2.1 p.2.2 (hps p (by simp)) cols hix a b c d e
      exact ih _ (fun x hx => hps x (by simp [hx]))
        hrow.1 hrow.2.1 hrow.2.2.1 hrow.2.2.2.1 hrow.2.2.2.2
  have hmem : ∀ p ∈ (rows.zip rows).enum, p.2.1 = p.2.2 := by
    intro p hp
    have : p.2 ∈ rows.zip rows := by
      have := List.enum_map_snd (rows.zip rows)
      exact this ▸ List.mem_map_of_mem Prod.snd hp
    exact mem_zip_self rows p.2 this
  exact main ((rows.zip rows).enum) _ hmem rfl rfl rfl rfl rfl

/-- C4: for an aligned numeric cell pair, delta = new − old; max_abs_delta
is updated with |delta| before tolerance zeroing; the contribution is 0 when
|delta| ≤ tolerance and |delta| otherwise; the accumulator adds every
contribution to the total but pushes only strictly positive ones into the
heap. Consequently, with tolerance 0 and identical inputs (same headers —
with the indices each common column resolves to coinciding, as unique
normalized headers guarantee — and same rows), the run yields NO REAL CHANGE
with max_abs_delta = 0. -/
theorem c4_theorem (t : ToleranceTracker) (old new : ℚ)
    (acc : DiffAccumulator CellId) (id : CellId) (d c : ℚ) (tie : Nat)
    (oh : List Bytes) (rows : List (List Bytes)) (th : ℚ) (cols : List CommonColumn)
    (hdet : detect_numeric_columns (intersect_headers oh oh none).common
      ((rows.zip rows).enum.map fun p => (p.1 + 1, p.2.1, p.2.2)) = .ok cols)
    (hne : cols ≠ [])
    (hix : ∀ cc ∈ cols, cc.old_index = cc.new_index) :
    ((t.apply old new).2.1 = new - old ∧
      (t.apply old new).1.max_abs_delta = max t.max_abs_delta |new - old| ∧
      (t.apply old new).2.2 = (if |new - old| ≤ t.tolerance then 0 else |new - old|)) ∧
    ((acc.observe id d c tie).total_change = acc.total_change + c ∧
      (acc.observe id d c tie).max_abs_delta = max acc.max_abs_delta |d| ∧
      (acc.observe id d c tie).top =
        (if 0 < c then acc.top.push ⟨id, d, c, tie⟩ else acc.top)) ∧
    (run_diff_row_order oh oh rows rows th 0 = .noRealChange ∧
      (diffRows 0 cols (rows.zip rows)).acc.max_abs_delta = 0) := by
  refine ⟨⟨?_, ?_, ?_⟩, ⟨?_, ?_, ?_⟩, ?_, ?_⟩
  · simp only [ToleranceTracker.apply, qsub_eq]
  · simp only [ToleranceTracker.apply, qsub_eq, qabs_eq, ite_lt_eq_max]
  · simp only [ToleranceTracker.apply, qsub_eq, qabs_eq]
  · simp only [DiffAccumulator.observe, qadd_eq]
    split <;> rfl
  · simp only [DiffAccumulator.observe, qabs_eq, ite_lt_eq_max]
    split <;> rfl
  · simp only [DiffAccumulator.observe]
    split <;> simp_all
  · have hz := diffRows_zero rows cols hix
    simp only [run_diff_row_order]
    rw [hdet]
    simp only [List.isEmpty_iff]
    rw [if_neg hne]
    rw [if_neg (by rw [hz.1]; simp)]
    rw [evaluate_coverage]
    rw [hz.1]
    simp
  · exact (diffRows_zero rows cols hix).2.1

/-- C4 witness: a one-column, one-row identical pair with tolerance 0 is NO
REAL CHANGE with max_abs_delta 0. -/
theorem c4_witness :
    run_diff_row_order [[97]] [[97]] [[[49]]] [[[49]]] (mkRat 95 100) 0 = .noRealChange ∧
    (diffRows 0 [⟨[97], 0, 0⟩] ([[[49]]].zip [[[49]]])).acc.max_abs_delta = 0 :=
  (c4_theorem (ToleranceTracker.new 0) 0 0 (DiffAccumulator.new CellId 25)
    ⟨.rowIndex 1, []⟩ 0 0 0 [[97]] [[[49]]] (mkRat 95 100) [⟨[97], 0, 0⟩]
    (by decide) (by decide) (by decide)).2.2

theorem heapItemLtb_iff {α : Type} (a b : Contributor α) :
    heapItemLtb a b = true ↔
      (a.contribution < b.contribution ∨
        (a.contribution = b.contribution ∧ b.tie_break < a.tie_break)) := by
  simp [heapItemLtb]

theorem heapItemLtb_irrefl {α : Type} (a : Contributor α) : heapItemLtb a a = false := by
  simp [heapItemLtb]

theorem heapItemLtb_trans_neg {α : Type} {c m p : Contributor α}
    (h1 : heapItemLtb c m = false) (h2 : heapItemLtb c p = true) :
    heapItemLtb m p = true := by
  rw [heapItemLtb_iff] at h2 ⊢
  have h1p : ¬(c.contribution < m.contribution ∨
      (c.contribution = m.contribution ∧ m.tie_break < c.tie_break)) := by
    rw [← heapItemLtb_iff]; simp [h1]
  push_neg at h1p
  obtain ⟨hle, himp⟩ := h1p
  rcases h2 with h2 | ⟨h2e, h2t⟩
  · left; exact lt_of_le_of_lt hle h2
  · rcases lt_or_eq_of_le hle with hm | hm
    · left; rw [← h2e]; exact hm
    · right
      refine ⟨by rw [hm, h2e], ?_⟩
      have hct := himp hm.symm
      omega

theorem heapItemLtb_trans {α : Type} {a b c : Contributor α}
    (h1 : heapItemLtb a b = true) (h2 : heapItemLtb b c = true) :
    heapItemLtb a c = true := by
  rw [heapItemLtb_iff] at h1 h2 ⊢
  rcases h1 with h1 | ⟨h1e, h1t⟩ <;> rcases h2 with h2 | ⟨h2e, h2t⟩
  · left; exact lt_trans h1 h2
  · left; rw [← h2e]; exact h1
  · left; rw [h1e]; exact h2
  · right; exact ⟨by rw [h1e, h2e], by omega⟩

theorem heapMinPick_spec {α : Type} (l : List (Contributor α)) :
    ∀ m : Contributor α,
      (heapMinPick m l = m ∨ heapMinPick m l ∈ l) ∧
      (∀ x, (x = m ∨ x ∈ l) → heapItemLtb x (heapMinPick m l) = false) := by
  induction l with
  | nil =>
    intro m
    refine ⟨Or.inl rfl, ?_⟩
    intro x hx
    rcases hx with hx | hx
    · rw [hx]; exact heapItemLtb_irrefl m
    · cases hx
  | cons c rest ih =>
    intro m
    by_cases hcm : heapItemLtb c m = true
    · have hr := ih c
      have hpick : heapMinPick m (c :: rest) = heapMinPick c rest := by
        simp [heapMinPick, hcm]
      constructor
      · rcases hr.1 with h | h
        · right; rw [hpick, h]; exact List.mem_cons_self c rest
        · right; rw [hpick]; exact List.mem_cons_of_mem c h
      · intro x hx
        rw [hpick]
        rcases hx with hx | hx
        · subst hx
          have hcp : heapItemLtb c (heapMinPick c rest) = false := hr.2 c (Or.inl rfl)
          by_cases hxp : heapItemLtb x (heapMinPick c rest) = true
          · exact absurd (heapItemLtb_trans hcm hxp) (by simp [hcp])
          · simpa using hxp
        · rw [List.mem_cons] at hx
          rcases hx with hx | hx
          · exact hr.2 x (Or.inl hx)
          · exact hr.2 x (Or.inr hx)
    · have hr := ih m
      have hpick : heapMinPick m (c :: rest) = heapMinPick m rest := by
        simp [heapMinPick, hcm]
      constructor
      · rcases hr.1 with h | h
        · left; rw [hpick, h]
        · right; rw [hpick]; exact List.mem_cons_of_mem c h
      · intro x hx
        rw [hpick]
        rcases hx with hx | hx
        · exact hr.2 x (Or.inl hx)
        · rw [List.mem_cons] at hx
          rcases hx with hx | hx
          · subst hx
            have hmp : heapItemLtb m (heapMinPick m rest) = false := hr.2 m (Or.inl rfl)
            by_cases hxp : heapItemLtb x (heapMinPick m rest) = true
            · have := heapItemLtb_trans_neg (by simpa using hcm) hxp
              exact absurd this (by simp [hmp])
            · simpa using hxp
          · exact hr.2 x (Or.inr hx)

/-- C5: after every push with the default bound 25, the top-K structure
holds at most 25 entries; a push below the bound simply inserts; a push at
the bound ejects an entry e that is present among the candidates, leaving
the multiset `(c :: heap).erase e`, where e has minimal contribution and,
among entries of equal contribution, the highest tie-break counter (so the
earlier observation is retained). -/
theorem c5_theorem {α : Type} [DecidableEq α] (t : TopContributors α)
    (c : Contributor α) (hmax : t.max = 25) (hlen : t.heap.length ≤ 25) :
    (t.push c).heap.length ≤ 25 ∧
    (t.heap.length < 25 → (t.push c).heap = c :: t.heap) ∧
    (t.heap.length = 25 →
      ∃ e, (e = c ∨ e ∈ t.heap) ∧
        (t.push c).heap = (c :: t.heap).erase e ∧
        (∀ x, (x = c ∨ x ∈ t.heap) → e.contribution ≤ x.contribution) ∧
        (∀ x, (x = c ∨ x ∈ t.heap) → e.contribution = x.contribution →
          x.tie_break ≤ e.tie_break)) := by
  obtain ⟨m, heap⟩ := t
  dsimp at hmax hlen ⊢
  subst hmax
  have hspec := heapMinPick_spec heap c
  refine ⟨?_, ?_, ?_⟩
  · rcases lt_or_eq_of_le hlen with hl | hl
    · rw [TopContributors.push]
      simp only [List.length_cons]
      rw [if_neg (by omega), if_neg (by omega)]
      simp only [List.length_cons]
      omega
    · rw [TopContributors.push]
      simp only [List.length_cons]
      rw [if_neg (by omega), if_pos (by omega)]
      have hmem : heapMinPick c heap ∈ c :: heap := by
        rcases hspec.1 with h | h
        · rw [h]; exact List.mem_cons_self c heap
        · exact List.mem_cons_of_mem c h
      have := List.length_erase_of_mem hmem
      simp only [this, List.length_cons]
      omega
  · intro hl
    rw [TopContributors.push]
    simp only [List.length_cons]
    rw [if_neg (by omega), if_neg (by omega)]
  · intro hl
    refine ⟨heapMinPick c heap, ?_, ?_, ?_, ?_⟩
    · rcases hspec.1 with h | h
      · left; exact h
      · right; exact h
    · rw [TopContributors.push]
      simp only [List.length_cons]
      rw [if_neg (by omega), if_pos (by omega)]
    · intro x hx
      have hf := hspec.2 x (by tauto)
      have : ¬(x.contribution < (heapMinPick c heap).contribution ∨
          (x.contribution = (heapMinPick c heap).contribution ∧
            (heapMinPick c heap).tie_break < x.tie_break)) := by
        rw [← heapItemLtb_iff]; simp [hf]
      push_neg at this
      exact this.1
    · intro x hx he
      have hf := hspec.2 x (by tauto)
      have : ¬(x.contribution < (heapMinPick c heap).contribution ∨
          (x.contribution = (heapMinPick c heap).contribution ∧
            (heapMinPick c heap).tie_break < x.tie_break)) := by
        rw [← heapItemLtb_iff]; simp [hf]
      push_neg at this
      have := this.2 he.symm
      omega

/-- C5 witness: pushing into a full heap of 25 entries keeps the bound. -/
theorem c5_witness :
    (TopContributors.push ⟨25, (List.range 25).map fun i => Contributor.mk i (1 : ℚ) 1 i⟩
      (Contributor.mk 99 2 2 25)).heap.length ≤ 25 :=
  (c5_theorem ⟨25, (List.range 25).map fun i => Contributor.mk i (1 : ℚ) 1 i⟩
    (Contributor.mk 99 2 2 25) rfl (by decide)).1

theorem qsum_eq (l : List ℚ) : qsum l = l.sum := by
  have main : ∀ (xs : List ℚ) (a : ℚ), xs.foldl qadd a = a + xs.sum := by
    intro xs
    induction xs with
    | nil => intro a; simp [List.foldl]
    | cons x xs ih =>
      intro a
      rw [List.foldl_cons, ih, qadd_eq, List.sum_cons]
      ring
  rw [qsum, main, zero_add]

theorem cum_take_cons (cum c : ℚ) (rest : List ℚ) (j : Nat) :
    qadd cum c + (rest.take j).sum = cum + ((c :: rest).take (j + 1)).sum := by
  rw [qadd_eq, List.take_succ_cons, List.sum_cons]
  ring

theorem coverLoop_spec (t th : ℚ) (cs : List ℚ) :
    ∀ (cum : ℚ) (k : Nat),
      (coverLoop t th cs cum k = none ∧
        ∀ j, 1 ≤ j → j ≤ cs.length → qdiv (cum + (cs.take j).sum) t < th) ∨
      (∃ j, 1 ≤ j ∧ j ≤ cs.length ∧
        coverLoop t th cs cum k = some (k + j, qdiv (cum + (cs.take j).sum) t) ∧
        th ≤ qdiv (cum + (cs.take j).sum) t ∧
        ∀ i, 1 ≤ i → i < j → qdiv (cum + (cs.take i).sum) t < th) := by
  induction cs with
  | nil =>
    intro cum k
    left
    exact ⟨rfl, fun j hj1 hj2 => by simp at hj2; omega⟩
  | cons c rest ih =>
    intro cum k
    have hone : qadd cum c = cum + ((c :: rest).take 1).sum := by
      have := cum_take_cons cum c rest 0
      simpa using this
    by_cases hth : th ≤ qdiv (qadd cum c) t
    · right
      refine ⟨1, le_refl 1, by simp, ?_, ?_, ?_⟩
      · rw [coverLoop, if_pos hth, hone]
      · rw [← hone]; exact hth
      · intro i hi1 hi2; omega
    · rcases ih (qadd cum c) (k + 1) with h | h
      · left
        refine ⟨by rw [coverLoop, if_neg hth]; exact h.1, ?_⟩
        intro j hj1 hj2
        match j, hj1 with
        | 1, _ =>
          rw [← hone]
          exact lt_of_not_le hth
        | j2 + 2, _ =>
          have := h.2 (j2 + 1) (by omega) (by simpa using hj2)
          rwa [cum_take_cons] at this
      · right
        obtain ⟨j, hj1, hj2, heq, hge, hlt⟩ := h
        refine ⟨j + 1, by omega, by simp; omega, ?_, ?_, ?_⟩
        · rw [coverLoop, if_neg hth, heq]
          have : k + 1 + j = k + (j + 1) := by omega
          rw [this, cum_take_cons]
        · rw [← cum_take_cons]; exact hge
        · intro i hi1 hi2
          match i, hi1 with
          | 1, _ =>
            rw [← hone]
            exact lt_of_not_le hth
          | i2 + 2, _ =>
            have := hlt (i2 + 1) (by omega) (by omega)
            rwa [cum_take_cons] at this

/-- C3 counterexample: for total_change = −1 (finite and nonzero) with
contributions [1] and threshold 1/2, the summed coverage is below the
threshold, yet `evaluate_coverage` returns NoChange — the code treats every
total ≤ 0 as NO REAL CHANGE, not only 0 and non-finite totals. -/
theorem c3_counterexample :
    evaluate_coverage [1] (.fin (mkRat (-1) 1)) (mkRat 1 2) = .noChange ∧
    (mkRat (-1) 1 : ℚ) ≠ 0 ∧
    qdiv (qsum [1]) (mkRat (-1) 1) < mkRat 1 2 ∧
    CoverageDecision.noChange ≠ .diffuse (qdiv (qsum [1]) (mkRat (-1) 1)) := by
  decide

/-- C3 (amended): for contributions sorted descending, any total_change and
threshold in (0,1]: a non-finite or non-positive (≤ 0) total gives NO REAL
CHANGE; a positive total whose summed top-K coverage is below the threshold
gives the Diffuse refusal carrying that coverage; otherwise the result is
REAL CHANGE at the smallest cutoff k whose prefix coverage reaches the
threshold, together with that achieved coverage. -/
theorem c3_theorem (cs : List ℚ) (t : F64) (th : ℚ) (h0 : 0 < th) (h1 : th ≤ 1) :
    ((t = .nonfinite ∨ ∃ q, t = .fin q ∧ q ≤ 0) → evaluate_coverage cs t th = .noChange) ∧
    (∀ q, t = .fin q → 0 < q → qdiv (qsum cs) q < th →
      evaluate_coverage cs t th = .diffuse (qdiv (qsum cs) q)) ∧
    (∀ q, t = .fin q → 0 < q → th ≤ qdiv (qsum cs) q →
      ∃ k, evaluate_coverage cs t th = .explainable k (qdiv (qsum (cs.take k)) q) ∧
        1 ≤ k ∧ k ≤ cs.length ∧ th ≤ qdiv (qsum (cs.take k)) q ∧
        ∀ j, j < k → qdiv (qsum (cs.take j)) q < th) := by
  refine ⟨?_, ?_, ?_⟩
  · rintro (h | ⟨q, hq, hle⟩)
    · rw [h, evaluate_coverage]
    · rw [hq, evaluate_coverage, if_pos hle]
  · intro q hq hpos hcov
    rw [hq, evaluate_coverage, if_neg (not_le.mpr hpos), if_pos hcov]
  · intro q hq hpos hcov
    rw [hq]
    rcases coverLoop_spec q th cs 0 0 with ⟨hnone, hall⟩ | ⟨j, hj1, hj2, heq, hge, hlt⟩
    · exfalso
      cases cs with
      | nil =>
        have : qdiv (qsum []) q = 0 := by
          rw [qdiv_eq, qsum_eq]
          simp
        rw [this] at hcov
        exact absurd (lt_of_lt_of_le h0 hcov) (lt_irrefl 0)
      | cons c rest =>
        have hlast := hall (c :: rest).length (by simp) (le_refl _)
        rw [List.take_length] at hlast
        rw [zero_add, ← qsum_eq] at hlast
        exact absurd hcov (not_le.mpr hlast)
    · refine ⟨j, ?_, hj1, hj2, ?_, ?_⟩
      · rw [evaluate_coverage, if_neg (not_le.mpr hpos), if_neg (not_lt.mpr hcov), heq]
        rw [show (0 : ℚ) + (List.take j cs).sum = qsum (cs.take j) by rw [qsum_eq, zero_add],
          Nat.zero_add]
      · rw [zero_add, ← qsum_eq] at hge
        exact hge
      · intro i hi
        cases Nat.eq_zero_or_pos i with
        | inl h =>
          subst h
          have : qdiv (qsum (cs.take 0)) q = 0 := by
            rw [qdiv_eq, qsum_eq]
            simp
          rw [this]
          exact h0
        | inr h =>
          have := hlt i h hi
          rw [zero_add, ← qsum_eq] at this
          exact this

/-- C3 witness: contributions [6,3,1], total 10, threshold 9/10 land in the
REAL-CHANGE branch with cutoff 2 and coverage 9/10. -/
theorem c3_witness :
    ∃ k, evaluate_coverage [6, 3, 1] (.fin 10) (mkRat 9 10)
        = .explainable k (qdiv (qsum (([6, 3, 1] : List ℚ).take k)) 10) ∧
      1 ≤ k ∧ k ≤ ([6, 3, 1] : List ℚ).length ∧
      mkRat 9 10 ≤ qdiv (qsum (([6, 3, 1] : List ℚ).take k)) 10 ∧
      ∀ j, j < k → qdiv (qsum (([6, 3, 1] : List ℚ).take j)) 10 < mkRat 9 10 :=
  (c3_theorem [6, 3, 1] (.fin 10) (mkRat 9 10) (by decide) (by decide)).2.2 10 rfl
    (by decide) (by decide)

theorem isDigit_to_ascii_lower (b : Nat) : isDigit (to_ascii_lower b) = isDigit b := by
  unfold to_ascii_lower isDigit
  split
  · rename_i h
    have e1 : decide (b + 32 ≤ 57) = false := decide_eq_false (by omega)
    have e2 : decide (b ≤ 57) = false := decide_eq_false (by omega)
    rw [e1, e2, Bool.and_false, Bool.and_false]
  · rfl

theorem any_isDigit_of_eq_ignore_case {a b : Bytes}
    (h : eq_ignore_ascii_case a b = true) : a.any isDigit = b.any isDigit := by
  unfold eq_ignore_ascii_case at h
  have hmap : a.map to_ascii_lower = b.map to_ascii_lower := by
    simpa using h
  have ha : a.any isDigit = (a.map to_ascii_lower).any isDigit := by
    rw [List.any_map]
    congr 1
    funext x
    exact (isDigit_to_ascii_lower x).symm
  have hb : b.any isDigit = (b.map to_ascii_lower).any isDigit := by
    rw [List.any_map]
    congr 1
    funext x
    exact (isDigit_to_ascii_lower x).symm
  rw [ha, hb, hmap]

theorem missing_token_no_digit {v : Bytes} (h : is_missing_token v = true) :
    (ascii_trim v).any isDigit = false := by
  unfold is_missing_token at h
  simp only [Bool.or_eq_true, List.isEmpty_iff] at h
  rcases h with ((((((h1 | h1) | h1) | h1) | h1) | h1) | h1)
  · rw [h1]; rfl
  · rw [eq_of_beq h1]; decide
  · rw [any_isDigit_of_eq_ignore_case h1]; decide
  · rw [any_isDigit_of_eq_ignore_case h1]; decide
  · rw [any_isDigit_of_eq_ignore_case h1]; decide
  · rw [any_isDigit_of_eq_ignore_case h1]; decide
  · rw [any_isDigit_of_eq_ignore_case h1]; decide

theorem mem_splitByComma {l : Bytes} {g : Bytes} (hg : g ∈ splitByComma l) :
    ∀ x ∈ g, x ∈ l := by
  induction l generalizing g with
  | nil =>
    simp only [splitByComma, List.mem_singleton] at hg
    subst hg
    intro x hx
    cases hx
  | cons b rest ih =>
    rw [splitByComma] at hg
    by_cases hb : (b == 44) = true
    · rw [if_pos hb] at hg
      rcases List.mem_cons.mp hg with hg | hg
      · subst hg; intro x hx; cases hx
      · intro x hx
        exact List.mem_cons_of_mem b (ih hg x hx)
    · rw [if_neg hb] at hg
      intro x hx
      rcases hsp : splitByComma rest with _ | ⟨g2, gs⟩
      · rw [hsp] at hg
        rcases List.mem_singleton.mp hg with rfl
        rcases List.mem_singleton.mp hx with rfl
        exact List.mem_cons_self x rest
      · rw [hsp] at hg
        rcases List.mem_cons.mp hg with hg | hg
        · subst hg
          rcases List.mem_cons.mp hx with rfl | hx
          · exact List.mem_cons_self x rest
          · exact List.mem_cons_of_mem b
              (ih (hsp ▸ List.mem_cons_self g2 gs) x hx)
        · exact List.mem_cons_of_mem b
            (ih (hsp ▸ List.mem_cons_of_mem g2 hg) x hx)

theorem stripSignDollar_suffix :
    ∀ (token : Bytes) (ss sd : Bool) (sg : ℚ),
      ∃ pre, token = pre ++ (stripSignDollar token ss sd sg).2 := by
  intro token
  induction token with
  | nil => intro ss sd sg; exact ⟨[], rfl⟩
  | cons b rest ih =>
    intro ss sd sg
    rw [stripSignDollar]
    by_cases h1 : ((b == 43 || b == 45) && !ss) = true
    · rw [if_pos h1]
      obtain ⟨pre, hp⟩ := ih true sd (if b == 45 then mkRat (-1) 1 else 1)
      exact ⟨b :: pre, by rw [List.cons_append, ← hp]⟩
    · rw [if_neg h1]
      by_cases h2 : (b == 36 && !sd) = true
      · rw [if_pos h2]
        obtain ⟨pre, hp⟩ := ih ss true sg
        exact ⟨b :: pre, by rw [List.cons_append, ← hp]⟩
      · rw [if_neg h2]
        exact ⟨[], rfl⟩

theorem validate_commas_no_digit (m : Bytes) (hm : ∀ x ∈ m, isDigit x = false) :
    validate_commas m = false := by
  have hint : ∀ x ∈ mantissaIntPart m, x ∈ m := fun x hx =>
    (List.takeWhile_sublist _).subset hx
  have hfrac : ∀ x ∈ mantissaFracPart m, x ∈ m := by
    intro x hx
    rw [mantissaFracPart] at hx
    split at hx
    · exact ((List.tail_sublist _).trans (List.dropWhile_sublist _)).subset hx
    · cases hx
  rw [validate_commas]
  by_cases hc : 2 ≤ m.count 46
  · rw [if_pos hc]
  · rw [if_neg hc]
    by_cases hf : (mantissaFracPart m).contains 44 = true
    · rw [if_pos hf]
    · rw [if_neg hf]
      by_cases hi : (mantissaIntPart m).contains 44 = true
      · rw [if_neg (by rw [hi]; decide)]
        rcases hsp : splitByComma (mantissaIntPart m) with _ | ⟨first, grest⟩
        · rfl
        · have hmem : ∀ y ∈ first, y ∈ m := fun y hy =>
            hint y (mem_splitByComma (hsp ▸ List.mem_cons_self first grest) y hy)
          have hcond : (first.isEmpty || 3 < first.length || !all_digits first) = true := by
            cases first with
            | nil => rfl
            | cons x xs =>
              have had : all_digits (x :: xs) = false := by
                by_cases hall : all_digits (x :: xs) = true
                · exfalso
                  have hx : isDigit x = true := by
                    have := List.all_eq_true.mp hall x (List.mem_cons_self x xs)
                    simpa using this
                  rw [hm x (hmem x (List.mem_cons_self x xs))] at hx
                  cases hx
                · simpa using hall
              simp [had]
          dsimp only
          rw [if_pos hcond]
      · have hi' : (mantissaIntPart m).contains 44 = false := by
          simpa using hi
        rw [if_pos (by rw [hi']; rfl)]
        have h1 : has_digit (mantissaIntPart m) = false := by
          rw [has_digit, List.any_eq_false]
          intro x hx
          simp [hm x (hint x hx)]
        have h2 : has_digit (mantissaFracPart m) = false := by
          rw [has_digit, List.any_eq_false]
          intro x hx
          simp [hm x (hfrac x hx)]
        rw [h1, h2]
        rfl

theorem parse_number_core_no_digit (token : Bytes)
    (h : ∀ x ∈ token, isDigit x = false) : parse_number_core token = none := by
  rw [parse_number_core]
  by_cases ht : token.isEmpty = true
  · rw [if_pos ht]
  · rw [if_neg ht]
    have hmant : ∀ x ∈ token.takeWhile (fun b => decide (b ≠ 101 ∧ b ≠ 69)), x ∈ token :=
      fun x hx => (List.takeWhile_sublist _).subset hx
    by_cases hm : (token.takeWhile fun b => decide (b ≠ 101 ∧ b ≠ 69)).isEmpty = true
    · rw [if_pos hm]
    · rw [if_neg hm]
      have hval : validate_commas (token.takeWhile fun b => decide (b ≠ 101 ∧ b ≠ 69))
          = false :=
        validate_commas_no_digit _ (fun x hx => h x (hmant x hx))
      by_cases hexp : (!(token.dropWhile fun b => b ≠ 101 ∧ b ≠ 69).isEmpty &&
          ((token.dropWhile fun b => b ≠ 101 ∧ b ≠ 69).length < 2 ||
            (token.dropWhile fun b => b ≠ 101 ∧ b ≠ 69).contains 44)) = true
      · rw [if_pos hexp]
      · rw [if_neg hexp, if_pos (by rw [hval]; rfl)]

theorem parsePrefixPart_suffix {token : Bytes} {sg : ℚ} {rest : Bytes}
    (h : parsePrefixPart token = some (sg, rest)) : ∃ pre, token = pre ++ rest := by
  obtain ⟨pre, hp⟩ := stripSignDollar_suffix token false false 1
  rw [parsePrefixPart] at h
  rcases hst : stripSignDollar token false false 1 with ⟨s0, r0⟩
  rw [hst] at h hp
  dsimp only at h
  by_cases h1 : r0.isEmpty = true
  · rw [if_pos h1] at h; cases h
  · rw [if_neg h1] at h
    by_cases h2 : (r0.head? == some 43 || r0.head? == some 45) = true
    · rw [if_pos h2] at h; cases h
    · rw [if_neg h2] at h
      by_cases h3 : r0.contains 36 = true
      · rw [if_pos h3] at h; cases h
      · rw [if_neg h3] at h
        injection h with h
        injection h with _ hrest
        exact ⟨pre, by rw [hp, hrest]⟩

theorem parseInsideParens_no_digit (token : Bytes)
    (h : ∀ x ∈ token, isDigit x = false) : parseInsideParens token = none := by
  rw [parseInsideParens]
  by_cases ht : token.isEmpty = true
  · rw [if_pos ht]
  · rw [if_neg ht]
    rcases hpp : parsePrefixPart token with _ | ⟨sg, rest⟩
    · rfl
    · obtain ⟨pre, hp⟩ := parsePrefixPart_suffix hpp
      have hrest : ∀ x ∈ rest, x ∈ token := by
        intro x hx
        rw [hp]
        exact List.mem_append_right pre hx
      dsimp only
      rw [parse_number_core_no_digit rest (fun x hx => h x (hrest x hx))]

/-- C10: the missing-token and numeric classifications are disjoint — every
missing token (empty, `-`, NA, N/A, NULL, NAN, NONE after ASCII-trim,
letters case-insensitive) is rejected by `parse_numeric`, so every cell
value falls into exactly one of the classes missing, numeric, non-numeric. -/
theorem c10_theorem (v : Bytes) :
    (is_missing_token v = true → parse_numeric v = none) ∧
    ((is_missing_token v = true ∧ parse_numeric v = none) ∨
      (is_missing_token v = false ∧ (parse_numeric v).isSome = true) ∨
      (is_missing_token v = false ∧ parse_numeric v = none)) := by
  have himp : is_missing_token v = true → parse_numeric v = none := by
    intro hm
    have hnd : ∀ x ∈ ascii_trim v, isDigit x = false := by
      have := missing_token_no_digit hm
      rw [List.any_eq_false] at this
      intro x hx
      simpa using this x hx
    simp only [parse_numeric]
    by_cases ht : (ascii_trim v).isEmpty = true
    · rw [if_pos ht]
    · rw [if_neg ht]
      by_cases hstrip : (decide (2 ≤ (ascii_trim v).length) &&
          (ascii_trim v).head? == some 40 && (ascii_trim v).getLast? == some 41) = true
      · rw [if_pos hstrip,
          parseInsideParens_no_digit _ (fun x hx => hnd x
            (((List.dropLast_sublist _).trans (List.drop_sublist 1 _)).subset hx))]
      · rw [if_neg hstrip, parseInsideParens_no_digit _ hnd]
  refine ⟨himp, ?_⟩
  by_cases hm : is_missing_token v = true
  · exact Or.inl ⟨hm, himp hm⟩
  · rcases hp : parse_numeric v with _ | q
    · exact Or.inr (Or.inr ⟨by simpa using hm, rfl⟩)
    · exact Or.inr (Or.inl ⟨by simpa using hm, rfl⟩)

/-- C10 witness: `NaN` is a missing token and is not numeric. -/
theorem c10_witness :
    is_missing_token [78, 97, 78] = true ∧ parse_numeric [78, 97, 78] = none :=
  ⟨by decide, (c10_theorem [78, 97, 78]).1 (by decide)⟩

theorem parse_numeric_paren_neg (v : Bytes)
    (h2 : 2 ≤ (ascii_trim v).length)
    (hh : (ascii_trim v).head? = some 40)
    (hl : (ascii_trim v).getLast? = some 41) :
    parse_numeric v =
      (parseInsideParens (((ascii_trim v).drop 1).dropLast)).map fun x => qneg (qabs x) := by
  have hne : ¬((ascii_trim v).isEmpty = true) := by
    cases htr : ascii_trim v
    · rw [htr] at h2; cases h2
    · simp
  have hstrip : (decide (2 ≤ (ascii_trim v).length) && (ascii_trim v).head? == some 40 &&
      (ascii_trim v).getLast? == some 41) = true := by
    simp [h2, hh, hl]
  simp only [parse_numeric]
  rw [if_neg hne, if_pos hstrip]
  rcases hk : parseInsideParens (((ascii_trim v).drop 1).dropLast) with _ | x
  · rfl
  · simp [hstrip]

theorem parsePrefixPart_no_second (token : Bytes) (sg : ℚ) (rest : Bytes)
    (hpp : parsePrefixPart token = some (sg, rest)) :
    rest.contains 36 = false ∧ rest.head? ≠ some 43 ∧ rest.head? ≠ some 45 := by
  rw [parsePrefixPart] at hpp
  rcases hst : stripSignDollar token false false 1 with ⟨s0, r0⟩
  rw [hst] at hpp
  dsimp only at hpp
  by_cases h1 : r0.isEmpty = true
  · rw [if_pos h1] at hpp; cases hpp
  · rw [if_neg h1] at hpp
    by_cases h2 : (r0.head? == some 43 || r0.head? == some 45) = true
    · rw [if_pos h2] at hpp; cases hpp
    · rw [if_neg h2] at hpp
      by_cases h3 : r0.contains 36 = true
      · rw [if_pos h3] at hpp; cases hpp
      · rw [if_neg h3] at hpp
        injection hpp with hpp
        injection hpp with hs hr
        refine ⟨by rw [← hr]; simpa using h3, ?_, ?_⟩
        · intro hc
          rw [← hr] at hc
          apply h2
          rw [hc]
          decide
        · intro hc
          rw [← hr] at hc
          apply h2
          rw [hc]
          decide

theorem validate_commas_grammar (m : Bytes) (hv : validate_commas m = true) :
    (mantissaFracPart m).contains 44 = false ∧
      ((mantissaIntPart m).contains 44 = true →
        ∃ first grest, splitByComma (mantissaIntPart m) = first :: grest ∧
          first.isEmpty = false ∧ first.length ≤ 3 ∧ all_digits first = true ∧
          ∀ g ∈ grest, g.length = 3 ∧ all_digits g = true) := by
  rw [validate_commas] at hv
  by_cases hc : 2 ≤ m.count 46
  · rw [if_pos hc] at hv; cases hv
  · rw [if_neg hc] at hv
    by_cases hf : (mantissaFracPart m).contains 44 = true
    · rw [if_pos hf] at hv; cases hv
    · rw [if_neg hf] at hv
      refine ⟨by simpa using hf, ?_⟩
      intro hi
      rw [if_neg (by rw [hi]; decide)] at hv
      rcases hsp : splitByComma (mantissaIntPart m) with _ | ⟨first, grest⟩
      · rw [hsp] at hv; cases hv
      · rw [hsp] at hv
        dsimp only at hv
        by_cases hcnd : (first.isEmpty || 3 < first.length || !all_digits first) = true
        · rw [if_pos hcnd] at hv; cases hv
        · rw [if_neg hcnd] at hv
          have h1 : first.isEmpty = false := by
            cases hb : first.isEmpty
            · rfl
            · exact absurd (by rw [hb]; simp) hcnd
          have h2 : first.length ≤ 3 := by
            by_cases hb : 3 < first.length
            · exact absurd (by simp [hb]) hcnd
            · omega
          have h3 : all_digits first = true := by
            cases hb : all_digits first
            · exact absurd (by rw [hb]; simp) hcnd
            · rfl
          refine ⟨first, grest, rfl, h1, h2, h3, ?_⟩
          intro g hg
          have hall : (g.length == 3 && all_digits g) = true := by
            simpa using List.all_eq_true.mp hv g hg
          rw [Bool.and_eq_true] at hall
          exact ⟨by simpa using hall.1, hall.2⟩

/-- C7: numeric parsing follows the grammar after ASCII-trim — outer
parentheses force negation of the absolute value parsed inside (so
`($1,234.56)` is −1234.56 and `(abc)` is non-numeric); the sign/`$` prefix
allows at most one of each in either order with no second sign or `$`
anywhere after it; thousands commas are valid only in the integer part as a
1–3 digit first group followed by exactly-3-digit groups; NaN and the
infinities are not numeric. -/
theorem c7_theorem :
    (parse_numeric [40, 36, 49, 44, 50, 51, 52, 46, 53, 54, 41] =
      some (mkRat (-123456) 100)) ∧
    (parse_numeric [40, 97, 98, 99, 41] = none) ∧
    (∀ v : Bytes, 2 ≤ (ascii_trim v).length → (ascii_trim v).head? = some 40 →
      (ascii_trim v).getLast? = some 41 →
      parse_numeric v =
        (parseInsideParens (((ascii_trim v).drop 1).dropLast)).map fun x => qneg (qabs x)) ∧
    (∀ token sg rest, parsePrefixPart token = some (sg, rest) →
      rest.contains 36 = false ∧ rest.head? ≠ some 43 ∧ rest.head? ≠ some 45) ∧
    (parse_numeric [45, 36, 53] = some (mkRat (-5) 1) ∧
      parse_numeric [36, 45, 53] = some (mkRat (-5) 1) ∧
      parse_numeric [43, 36, 53] = some (mkRat 5 1) ∧
      parse_numeric [36, 43, 53] = some (mkRat 5 1) ∧
      parse_numeric [45, 45, 49] = none ∧
      parse_numeric [36, 36, 49] = none ∧
      parse_numeric [43, 45, 49] = none ∧
      parse_numeric [49, 36] = none) ∧
    (∀ m : Bytes, validate_commas m = true →
      (mantissaFracPart m).contains 44 = false ∧
        ((mantissaIntPart m).contains 44 = true →
          ∃ first grest, splitByComma (mantissaIntPart m) = first :: grest ∧
            first.isEmpty = false ∧ first.length ≤ 3 ∧ all_digits first = true ∧
            ∀ g ∈ grest, g.length = 3 ∧ all_digits g = true)) ∧
    (parse_numeric [49, 44, 50, 51, 52, 46, 53, 54] = some (mkRat 123456 100) ∧
      parse_numeric [49, 50, 44, 51, 52] = none ∧
      parse_numeric [49, 44, 50, 51, 52, 53] = none ∧
      parse_numeric [44, 49, 50, 51] = none ∧
      parse_numeric [49, 46, 50, 44, 51] = none) ∧
    (parse_numeric [78, 97, 78] = none ∧
      parse_numeric [110, 97, 110] = none ∧
      parse_numeric [105, 110, 102] = none ∧
      parse_numeric [73, 110, 102, 105, 110, 105, 116, 121] = none ∧
      parse_numeric [45, 105, 110, 102] = none) :=
  ⟨by decide, by decide, parse_numeric_paren_neg, parsePrefixPart_no_second,
    by decide, validate_commas_grammar, by decide, by decide⟩

/-- C7 witness: the general conjuncts of `c7_theorem` instantiated at
`($1,234.56)`, the prefix `$-5`, and the mantissa `1,234`. -/
theorem c7_witness :
    (parse_numeric [40, 36, 49, 44, 50, 51, 52, 46, 53, 54, 41] =
      (parseInsideParens
          (((ascii_trim [40, 36, 49, 44, 50, 51, 52, 46, 53, 54, 41]).drop 1).dropLast)).map
        fun x => qneg (qabs x)) ∧
    (([53] : Bytes).contains 36 = false ∧ ([53] : Bytes).head? ≠ some 43 ∧
      ([53] : Bytes).head? ≠ some 45) ∧
    ((mantissaFracPart [49, 44, 50, 51, 52]).contains 44 = false ∧
      ((mantissaIntPart [49, 44, 50, 51, 52]).contains 44 = true →
        ∃ first grest, splitByComma (mantissaIntPart [49, 44, 50, 51, 52]) = first :: grest ∧
          first.isEmpty = false ∧ first.length ≤ 3 ∧ all_digits first = true ∧
          ∀ g ∈ grest, g.length = 3 ∧ all_digits g = true)) :=
  ⟨c7_theorem.2.2.1 [40, 36, 49, 44, 50, 51, 52, 46, 53, 54, 41]
      (by decide) (by decide) (by decide),
    c7_theorem.2.2.2.1 [36, 45, 53] (mkRat (-1) 1) [53] (by decide),
    c7_theorem.2.2.2.2.2.1 [49, 44, 50, 51, 52] (by decide)⟩

theorem bytesStartWith_append (pre l : Bytes) : bytesStartWith (pre ++ l) pre = true := by
  induction pre with
  | nil => cases l <;> rfl
  | cons b bs ih => simp [bytesStartWith, ih]

theorem hex_digit_inj {a b : Nat} (ha : a < 16) (hb : b < 16)
    (h : hex_digit a = hex_digit b) : a = b := by
  unfold hex_digit at h
  split at h <;> split at h <;> omega

theorem hex_bytes_cons (x : Nat) (xs : Bytes) :
    hex_bytes (x :: xs) = hex_digit (x / 16) :: hex_digit (x % 16) :: hex_bytes xs := rfl

theorem hex_bytes_inj (xs : Bytes) : ∀ ys : Bytes, (∀ x ∈ xs, x < 256) →
    (∀ y ∈ ys, y < 256) → hex_bytes xs = hex_bytes ys → xs = ys := by
  induction xs with
  | nil =>
    intro ys _ _ h
    cases ys with
    | nil => rfl
    | cons y ys => rw [hex_bytes_cons] at h; cases h
  | cons x xs ih =>
    intro ys hx hy h
    cases ys with
    | nil => rw [hex_bytes_cons] at h; cases h
    | cons y ys =>
      rw [hex_bytes_cons, hex_bytes_cons] at h
      injection h with h1 h
      injection h with h2 h
      have hx256 : x < 256 := hx x (List.mem_cons_self x xs)
      have hy256 : y < 256 := hy y (List.mem_cons_self y ys)
      have e1 : x / 16 = y / 16 := hex_digit_inj (by omega) (by omega) h1
      have e2 : x % 16 = y % 16 := hex_digit_inj (by omega) (by omega) h2
      have exy : x = y := by omega
      rw [exy, ih ys (fun a ha => hx a (List.mem_cons_of_mem x ha))
        (fun a ha => hy a (List.mem_cons_of_mem y ha)) h]

theorem encode_identifier_json_inj (xs ys : Bytes) (hx : ∀ x ∈ xs, x < 256)
    (hy : ∀ y ∈ ys, y < 256)
    (h : encode_identifier_json xs = encode_identifier_json ys) : xs = ys := by
  rw [encode_identifier_json, encode_identifier_json] at h
  by_cases cx : (is_valid_utf8 xs && !contains_ascii_control xs) = true
  · rw [if_pos cx] at h
    by_cases cy : (is_valid_utf8 ys && !contains_ascii_control ys) = true
    · rw [if_pos cy] at h
      simpa [u8Marker] using h
    · rw [if_neg cy] at h
      simp [u8Marker, hexMarker] at h
  · rw [if_neg cx] at h
    by_cases cy : (is_valid_utf8 ys && !contains_ascii_control ys) = true
    · rw [if_pos cy] at h
      simp [u8Marker, hexMarker] at h
    · rw [if_neg cy] at h
      exact hex_bytes_inj xs ys hx hy (by simpa [hexMarker] using h)

theorem render_identifier_human_inj (xs ys : Bytes) (hx : ∀ x ∈ xs, x < 256)
    (hy : ∀ y ∈ ys, y < 256)
    (h : render_identifier_human xs = render_identifier_human ys) : xs = ys := by
  have hexhex := hex_bytes_inj xs ys hx hy
  rw [render_identifier_human, render_identifier_human] at h
  by_cases vx : is_valid_utf8 xs = true
  · rw [if_pos vx] at h
    by_cases cx : contains_ascii_control xs = true
    · rw [if_pos cx] at h
      by_cases vy : is_valid_utf8 ys = true
      · rw [if_pos vy] at h
        by_cases cy : contains_ascii_control ys = true
        · rw [if_pos cy] at h
          exact hexhex (by simpa [hexMarker] using h)
        · rw [if_neg cy] at h
          by_cases sy : (bytesStartWith ys u8Marker || bytesStartWith ys hexMarker) = true
          · rw [if_pos sy] at h
            simp [hexMarker, u8Marker] at h
          · rw [if_neg sy] at h
            rw [← h] at sy
            simp [bytesStartWith_append] at sy
      · rw [if_neg vy] at h
        exact hexhex (by simpa [hexMarker] using h)
    · rw [if_neg cx] at h
      by_cases sx : (bytesStartWith xs u8Marker || bytesStartWith xs hexMarker) = true
      · rw [if_pos sx] at h
        by_cases vy : is_valid_utf8 ys = true
        · rw [if_pos vy] at h
          by_cases cy : contains_ascii_control ys = true
          · rw [if_pos cy] at h
            simp [hexMarker, u8Marker] at h
          · rw [if_neg cy] at h
            by_cases sy : (bytesStartWith ys u8Marker || bytesStartWith ys hexMarker) = true
            · rw [if_pos sy] at h
              simpa [u8Marker] using h
            · rw [if_neg sy] at h
              rw [← h] at sy
              simp [bytesStartWith_append] at sy
        · rw [if_neg vy] at h
          simp [hexMarker, u8Marker] at h
      · rw [if_neg sx] at h
        by_cases vy : is_valid_utf8 ys = true
        · rw [if_pos vy] at h
          by_cases cy : contains_ascii_control ys = true
          · rw [if_pos cy] at h
            rw [h] at sx
            simp [bytesStartWith_append] at sx
          · rw [if_neg cy] at h
            by_cases sy : (bytesStartWith ys u8Marker || bytesStartWith ys hexMarker) = true
            · rw [if_pos sy] at h
              rw [h] at sx
              simp [bytesStartWith_append] at sx
            · rw [if_neg sy] at h
              exact h
        · rw [if_neg vy] at h
          rw [h] at sx
          simp [bytesStartWith_append] at sx
  · rw [if_neg vx] at h
    by_cases vy : is_valid_utf8 ys = true
    · rw [if_pos vy] at h
      by_cases cy : contains_ascii_control ys = true
      · rw [if_pos cy] at h
        exact hexhex (by simpa [hexMarker] using h)
      · rw [if_neg cy] at h
        by_cases sy : (bytesStartWith ys u8Marker || bytesStartWith ys hexMarker) = true
        · rw [if_pos sy] at h
          simp [hexMarker, u8Marker] at h
        · rw [if_neg sy] at h
          rw [← h] at sy
          simp [bytesStartWith_append] at sy
    · rw [if_neg vy] at h
      exact hexhex (by simpa [hexMarker] using h)

/-- C9: the JSON identifier encoding yields `u8:<bytes>` exactly when the
bytes are valid UTF-8 with no ASCII control byte (≤ 0x1F or 0x7F) and the
`hex:` lowercase expansion otherwise, and both the JSON encoder and the
human renderer are injective on byte strings. -/
theorem c9_theorem :
    (∀ bs : Bytes,
      (is_valid_utf8 bs = true ∧ contains_ascii_control bs = false →
        encode_identifier_json bs = u8Marker ++ bs) ∧
      (is_valid_utf8 bs = false ∨ contains_ascii_control bs = true →
        encode_identifier_json bs = hexMarker ++ hex_bytes bs) ∧
      (encode_identifier_json bs = u8Marker ++ bs →
        is_valid_utf8 bs = true ∧ contains_ascii_control bs = false)) ∧
    (∀ xs ys : Bytes, (∀ x ∈ xs, x < 256) → (∀ y ∈ ys, y < 256) →
      encode_identifier_json xs = encode_identifier_json ys → xs = ys) ∧
    (∀ xs ys : Bytes, (∀ x ∈ xs, x < 256) → (∀ y ∈ ys, y < 256) →
      render_identifier_human xs = render_identifier_human ys → xs = ys) ∧
    (encode_identifier_json [97, 98, 99] = u8Marker ++ [97, 98, 99] ∧
      encode_identifier_json [0, 97, 98, 99] =
        [104, 101, 120, 58, 48, 48, 54, 49, 54, 50, 54, 51] ∧
      encode_identifier_json [255, 254] = [104, 101, 120, 58, 102, 102, 102, 101] ∧
      encode_identifier_json [117, 56, 58, 102, 111, 111] =
        u8Marker ++ [117, 56, 58, 102, 111, 111] ∧
      render_identifier_human [104, 101, 108, 108, 111] = [104, 101, 108, 108, 111] ∧
      render_identifier_human [117, 56, 58, 99, 111, 108] =
        u8Marker ++ [117, 56, 58, 99, 111, 108] ∧
      render_identifier_human [104, 105, 1] =
        [104, 101, 120, 58, 54, 56, 54, 57, 48, 49] ∧
      render_identifier_human [255, 254] = [104, 101, 120, 58, 102, 102, 102, 101]) := by
  refine ⟨fun bs => ⟨?_, ?_, ?_⟩, encode_identifier_json_inj,
    render_identifier_human_inj, by decide⟩
  · intro hcond
    rw [encode_identifier_json, if_pos (by simp [hcond.1, hcond.2])]
  · intro hdisj
    have hc : ¬((is_valid_utf8 bs && !contains_ascii_control bs) = true) := by
      rcases hdisj with h1 | h2
      · simp [h1]
      · simp [h2]
    rw [encode_identifier_json, if_neg hc]
  · intro he
    by_cases hcond : (is_valid_utf8 bs && !contains_ascii_control bs) = true
    · have := hcond
      simp only [Bool.and_eq_true] at this
      refine ⟨this.1, ?_⟩
      have h2 := this.2
      cases hcc : contains_ascii_control bs
      · rfl
      · rw [hcc] at h2; cases h2
    · exfalso
      rw [encode_identifier_json, if_neg hcond] at he
      simp [hexMarker, u8Marker] at he

/-- C9 witness: the characterization and both injectivity conjuncts of
`c9_theorem` instantiated at concrete byte strings. -/
theorem c9_witness :
    encode_identifier_json [97, 98] = u8Marker ++ [97, 98] ∧
    ([102, 103] : Bytes) = [102, 103] ∧ ([0, 255] : Bytes) = [0, 255] :=
  ⟨(c9_theorem.1 [97, 98]).1 (by decide),
    c9_theorem.2.1 [102, 103] [102, 103] (by decide) (by decide) (by decide),
    c9_theorem.2.2.1 [0, 255] [0, 255] (by decide) (by decide) (by decide)⟩

/-- C6: column typing over common columns × aligned rows — both-missing
pairs are skipped; one-missing with the other side numeric fails
Missingness at once (the reported file is the present side); both-numeric
with a previously recorded non-numeric fails MixedTypes with that first
recorded (row, side, value); one-numeric-one-not after the column saw
numeric fails MixedTypes naming the non-numeric side; the result is exactly
the columns with `saw_numeric` set, and an empty result yields the
NoNumeric refusal. -/
theorem c6_theorem :
    (∀ (st : ColumnState Nat) (rid : Nat) (o n : Bytes),
      is_missing_token o = true → is_missing_token n = true →
      processPair st rid o n = .ok st) ∧
    (∀ (st : ColumnState Nat) (rid : Nat) (o n : Bytes),
      is_missing_token o = true → is_missing_token n = false →
      (parse_numeric n).isSome = true →
      processPair st rid o n =
        .error (.missingness ⟨rid, st.column.name, Side.old, n⟩) ∧
      missingnessFile (⟨rid, st.column.name, Side.old, n⟩ : MissingnessError Nat) =
        Side.new) ∧
    (∀ (st : ColumnState Nat) (rid : Nat) (o n : Bytes),
      is_missing_token o = false → is_missing_token n = true →
      (parse_numeric o).isSome = true →
      processPair st rid o n =
        .error (.missingness ⟨rid, st.column.name, Side.new, o⟩) ∧
      missingnessFile (⟨rid, st.column.name, Side.new, o⟩ : MissingnessError Nat) =
        Side.old) ∧
    (∀ (st : ColumnState Nat) (rid : Nat) (o n : Bytes) (nn : NonNumeric Nat),
      is_missing_token o = false → is_missing_token n = false →
      (parse_numeric o).isSome = true → (parse_numeric n).isSome = true →
      st.first_non_numeric = some nn →
      processPair st rid o n =
        .error (.mixedTypes ⟨nn.row_id, st.column.name, nn.side, nn.value⟩)) ∧
    (∀ (st : ColumnState Nat) (rid : Nat) (o n : Bytes),
      is_missing_token o = false → is_missing_token n = false →
      (parse_numeric o).isSome = true → (parse_numeric n).isSome = false →
      st.saw_numeric = true →
      processPair st rid o n = .error (.mixedTypes ⟨rid, st.column.name, Side.new, n⟩)) ∧
    (∀ (st : ColumnState Nat) (rid : Nat) (o n : Bytes),
      is_missing_token o = false → is_missing_token n = false →
      (parse_numeric o).isSome = false → (parse_numeric n).isSome = true →
      st.saw_numeric = true →
      processPair st rid o n = .error (.mixedTypes ⟨rid, st.column.name, Side.old, o⟩)) ∧
    (∀ (columns : List CommonColumn) (rows : List (Nat × List Bytes × List Bytes))
      (final : List (ColumnState Nat)),
      rows.foldlM (fun sts r => processRow sts r.1 r.2.1 r.2.2)
          (columns.map fun c => ColumnState.init c) = .ok final →
      detect_numeric_columns columns rows =
        .ok ((final.filter (·.saw_numeric)).map (·.column))) ∧
    (∀ (oh nh : List Bytes) (orows nrows : List (List Bytes)) (th tol : ℚ),
      detect_numeric_columns (intersect_headers oh nh none).common
          ((orows.zip nrows).enum.map fun p => (p.1 + 1, p.2.1, p.2.2)) = .ok [] →
      run_diff_row_order oh nh orows nrows th tol = .noNumeric) := by
  refine ⟨?_, ?_, ?_, ?_, ?_, ?_, ?_, ?_⟩
  · intro st rid o n ho hn
    simp [processPair, ho, hn]
  · intro st rid o n ho hn hp
    exact ⟨by simp [processPair, ho, hn, hp], rfl⟩
  · intro st rid o n ho hn hp
    exact ⟨by simp [processPair, ho, hn, hp], rfl⟩
  · intro st rid o n nn ho hn hpo hpn hnn
    simp [processPair, ho, hn, hpo, hpn, hnn]
  · intro st rid o n ho hn hpo hpn hsaw
    simp [processPair, ho, hn, hpo, hpn, hsaw]
  · intro st rid o n ho hn hpo hpn hsaw
    simp [processPair, ho, hn, hpo, hpn, hsaw]
  · intro columns rows final hf
    simp only [detect_numeric_columns]
    rw [hf]
    rfl
  · intro oh nh orows nrows th tol hdet
    simp only [run_diff_row_order]
    rw [hdet]
    rfl

/-- C6 witness: a one-missing numeric pair fails Missingness with the
present side reported, and an empty numeric-column set yields NoNumeric. -/
theorem c6_witness :
    (processPair (ColumnState.init ⟨[99], 0, 0⟩) 1 [] [53] =
        .error (.missingness ⟨1, [99], Side.old, [53]⟩) ∧
      missingnessFile (⟨1, [99], Side.old, [53]⟩ : MissingnessError Nat) = Side.new) ∧
    run_diff_row_order [[97]] [[98]] [] [] (mkRat 9 10) 0 = .noNumeric :=
  ⟨c6_theorem.2.1 (ColumnState.init ⟨[99], 0, 0⟩) 1 [] [53]
      (by decide) (by decide) (by decide),
    c6_theorem.2.2.2.2.2.2.2 [[97]] [[98]] [] [] (mkRat 9 10) 0 (by decide)⟩

/-- C2 counterexample: `new` holds exactly the rows of `old` reversed, the
`id` column is a perfect candidate whose trimmed value sequence differs
between the sides, yet with equal `v` values the diff total is 0, the
shuffle guard is skipped, and row-order `run_diff` returns NO REAL CHANGE
rather than the NeedKey refusal. -/
theorem c2_counterexample :
    ([[[98], [49]], [[97], [49]]] : List (List Bytes)).Perm
      [[[97], [49]], [[98], [49]]] ∧
    ([[[98], [49]], [[97], [49]]] : List (List Bytes)) ≠ [[[97], [49]], [[98], [49]]] ∧
    (discover_key_candidates [[105, 100], [118]] [[105, 100], [118]]
        [[[97], [49]], [[98], [49]]] [[[98], [49]], [[97], [49]]]).any
      (fun c => c.kind == .perfect &&
        has_reorder c [[[97], [49]], [[98], [49]]] [[[98], [49]], [[97], [49]]]) = true ∧
    run_diff_row_order [[105, 100], [118]] [[105, 100], [118]]
        [[[97], [49]], [[98], [49]]] [[[98], [49]], [[97], [49]]] (mkRat 95 100) 0 =
      .noRealChange ∧
    run_diff_row_order [[105, 100], [118]] [[105, 100], [118]]
        [[[97], [49]], [[98], [49]]] [[[98], [49]], [[97], [49]]] (mkRat 95 100) 0 ≠
      .needKey (detect_shuffle [[105, 100], [118]] [[105, 100], [118]]
          [[[97], [49]], [[98], [49]]] [[[98], [49]], [[97], [49]]]).suggested_keys :=
  ⟨by decide, by decide, by decide, by decide, by decide⟩

/-- C2 (amended): in row-order mode, when column typing succeeds with a
non-empty numeric column set, the diff total is positive, and a perfect key
candidate's trimmed value sequence differs between old and new, the outcome
is the NeedKey refusal with the first 3 candidate names. -/
theorem c2_theorem (oh nh : List Bytes) (orows nrows : List (List Bytes))
    (th tol : ℚ) (cols : List CommonColumn)
    (hdet : detect_numeric_columns (intersect_headers oh nh none).common
        ((orows.zip nrows).enum.map fun p => (p.1 + 1, p.2.1, p.2.2)) = .ok cols)
    (hne : cols.isEmpty = false)
    (htot : 0 < (diffRows tol cols (orows.zip nrows)).acc.total_change)
    (hsh : (discover_key_candidates oh nh orows nrows).any
        (fun c => c.kind == .perfect && has_reorder c orows nrows) = true) :
    run_diff_row_order oh nh orows nrows th tol =
      .needKey (((discover_key_candidates oh nh orows nrows).take 3).map (·.name)) := by
  have hre : (detect_shuffle oh nh orows nrows).reordered = true := hsh
  simp only [run_diff_row_order]
  rw [hdet]
  dsimp only
  rw [if_neg (by rw [hne]; decide)]
  rw [if_pos ⟨htot, hre⟩]
  rfl

/-- C2 witness: with differing `v` values (positive diff total) and the
perfect `id` candidate reordered, `run_diff` refuses with NeedKey and
suggests `id` then `v`. -/
theorem c2_witness :
    run_diff_row_order [[105, 100], [118]] [[105, 100], [118]]
        [[[97], [49]], [[98], [50]]] [[[98], [51]], [[97], [52]]] (mkRat 95 100) 0 =
      .needKey (((discover_key_candidates [[105, 100], [118]] [[105, 100], [118]]
          [[[97], [49]], [[98], [50]]] [[[98], [51]], [[97], [52]]]).take 3).map (·.name)) :=
  c2_theorem [[105, 100], [118]] [[105, 100], [118]] [[[97], [49]], [[98], [50]]]
    [[[98], [51]], [[97], [52]]] (mkRat 95 100) 0 [⟨[118], 1, 1⟩]
    (by decide) (by decide) (by decide) (by decide)

theorem byteLtb_cons_self (x : Nat) (xs ys : Bytes) :
    byteLtb (x :: xs) (x :: ys) = byteLtb xs ys := by
  simp [byteLtb, Nat.lt_irrefl]

theorem byteLtb_cons_iff {x y : Nat} {xs ys : Bytes} :
    byteLtb (x :: xs) (y :: ys) = true ↔ x < y ∨ (x = y ∧ byteLtb xs ys = true) := by
  simp [byteLtb, Bool.or_eq_true, Bool.and_eq_true, beq_iff_eq, decide_eq_true_iff]

theorem byteR_total : ∀ a b : Bytes,
    (byteLtb a b = true ∨ a = b) ∨ (byteLtb b a = true ∨ b = a) := by
  intro a
  induction a with
  | nil =>
    intro b
    cases b with
    | nil => exact Or.inl (Or.inr rfl)
    | cons y ys => exact Or.inl (Or.inl rfl)
  | cons x xs ih =>
    intro b
    cases b with
    | nil => exact Or.inr (Or.inl rfl)
    | cons y ys =>
      rcases Nat.lt_trichotomy x y with h | h | h
      · exact Or.inl (Or.inl (by simp [byteLtb, h]))
      · subst h
        rcases ih ys with h2 | h2
        · rcases h2 with h2 | h2
          · exact Or.inl (Or.inl (by rw [byteLtb_cons_self]; exact h2))
          · exact Or.inl (Or.inr (by rw [h2]))
        · rcases h2 with h2 | h2
          · exact Or.inr (Or.inl (by rw [byteLtb_cons_self]; exact h2))
          · exact Or.inr (Or.inr (by rw [h2]))
      · exact Or.inr (Or.inl (by simp [byteLtb, h]))

theorem byteLtb_trans : ∀ (a b c : Bytes), byteLtb a b = true → byteLtb b c = true →
    byteLtb a c = true := by
  intro a
  induction a with
  | nil =>
    intro b c h1 h2
    cases b with
    | nil => exact Bool.noConfusion h1
    | cons y ys =>
      cases c with
      | nil => exact Bool.noConfusion h2
      | cons z zs => rfl
  | cons x xs ih =>
    intro b c h1 h2
    cases b with
    | nil => exact Bool.noConfusion h1
    | cons y ys =>
      cases c with
      | nil => exact Bool.noConfusion h2
      | cons z zs =>
        rw [byteLtb_cons_iff] at h1 h2 ⊢
        rcases h1 with h1 | ⟨he1, h1⟩
        · rcases h2 with h2 | ⟨he2, h2⟩
          · exact Or.inl (by omega)
          · exact Or.inl (by omega)
        · rcases h2 with h2 | ⟨he2, h2⟩
          · exact Or.inl (by omega)
          · exact Or.inr ⟨by omega, ih ys zs h1 h2⟩

theorem byteR_trans {a b c : Bytes} (h1 : byteLtb a b = true ∨ a = b)
    (h2 : byteLtb b c = true ∨ b = c) : byteLtb a c = true ∨ a = c := by
  rcases h1 with h1 | rfl
  · rcases h2 with h2 | rfl
    · exact Or.inl (byteLtb_trans a b c h1 h2)
    · exact Or.inl h1
  · exact h2

theorem insertBytes_perm (b : Bytes) (l : List Bytes) :
    (insertBytes b l).Perm (b :: l) := by
  induction l with
  | nil => exact List.Perm.refl _
  | cons x xs ih =>
    rw [insertBytes]
    by_cases h : (byteLtb b x || b == x) = true
    · rw [if_pos h]
    · rw [if_neg h]
      exact List.Perm.trans (List.Perm.cons x ih) (List.Perm.swap b x xs)

theorem sortBytes_perm (l : List Bytes) : (sortBytes l).Perm l := by
  induction l with
  | nil => exact List.Perm.refl _
  | cons x xs ih =>
    rw [sortBytes]
    exact List.Perm.trans (insertBytes_perm x (sortBytes xs)) (List.Perm.cons x ih)

theorem insertBytes_sorted (b : Bytes) : ∀ l : List Bytes,
    l.Pairwise (fun a c => byteLtb a c = true ∨ a = c) →
    (insertBytes b l).Pairwise (fun a c => byteLtb a c = true ∨ a = c) := by
  intro l
  induction l with
  | nil => intro _; exact List.pairwise_singleton _ b
  | cons x xs ih =>
    intro hs
    rcases List.pairwise_cons.mp hs with ⟨hx, hxs⟩
    rw [insertBytes]
    by_cases h : (byteLtb b x || b == x) = true
    · rw [if_pos h]
      refine List.pairwise_cons.mpr ⟨?_, hs⟩
      intro y hy
      rw [Bool.or_eq_true] at h
      have hbx : byteLtb b x = true ∨ b = x := by
        rcases h with h' | h'
        · exact Or.inl h'
        · exact Or.inr (by simpa using h')
      rcases List.mem_cons.mp hy with rfl | hy'
      · exact hbx
      · exact byteR_trans hbx (hx y hy')
    · rw [if_neg h]
      refine List.pairwise_cons.mpr ⟨?_, ih hxs⟩
      intro y hy
      have hxb : byteLtb x b = true ∨ x = b := by
        rcases byteR_total b x with hh | hh
        · exfalso
          apply h
          rcases hh with hh | hh
          · simp [hh]
          · simp [hh]
        · exact hh
      rcases List.mem_cons.mp ((insertBytes_perm b xs).mem_iff.mp hy) with rfl | hy'
      · exact hxb
      · exact hx y hy'

theorem sortBytes_sorted : ∀ l : List Bytes,
    (sortBytes l).Pairwise (fun a c => byteLtb a c = true ∨ a = c) := by
  intro l
  induction l with
  | nil => exact List.Pairwise.nil
  | cons x xs ih =>
    rw [sortBytes]
    exact insertBytes_sorted x (sortBytes xs) ih

theorem lookupKey_isSome_of_mem {entries : KeyMapEntries} {k : Bytes}
    (h : k ∈ entries.map (·.1)) : (lookupKey entries k).isSome = true := by
  rcases List.mem_map.mp h with ⟨p, hp, he⟩
  rcases hf : entries.find? (fun q => q.1 == k) with _ | q
  · exfalso
    have hnone := List.find?_eq_none.mp hf p hp
    simp [he] at hnone
  · rw [lookupKey, hf]
    rfl

theorem not_mem_of_lookupKey_none {entries : KeyMapEntries} {k : Bytes}
    (h : lookupKey entries k = none) : k ∉ entries.map (·.1) := by
  intro hk
  have := lookupKey_isSome_of_mem hk
  rw [h] at this
  cases this

theorem build_key_map_loop_nodup (ki : Nat) :
    ∀ (records : List (Nat × List Bytes)) (entries final : KeyMapEntries),
      (entries.map (·.1)).Nodup →
      build_key_map_loop ki entries records = .ok final →
      (final.map (·.1)).Nodup := by
  intro records
  induction records with
  | nil =>
    intro entries final hnd h
    rw [build_key_map_loop] at h
    injection h with h
    rw [← h]
    exact hnd
  | cons p rest ih =>
    intro entries final hnd h
    obtain ⟨n, r⟩ := p
    simp only [build_key_map_loop] at h
    by_cases hb : is_blank_owned_record r = true
    · rw [if_pos hb] at h
      exact ih entries final hnd h
    · rw [if_neg hb] at h
      by_cases he : (ascii_trim (fieldOf r ki)).isEmpty = true
      · rw [if_pos he] at h; cases h
      · rw [if_neg he] at h
        rcases hl : lookupKey entries (ascii_trim (fieldOf r ki)) with _ | ex
        · rw [hl] at h
          dsimp only at h
          refine ih _ final ?_ h
          rw [List.map_append]
          refine List.Nodup.append hnd (List.nodup_singleton _) ?_
          intro a ha hb2
          have ha2 : a = ascii_trim (fieldOf r ki) := by simpa using hb2
          rw [ha2] at ha
          exact not_mem_of_lookupKey_none hl ha
        · rw [hl] at h
          dsimp only at h
          cases h

theorem compare_key_sets_none (oe ne : KeyMapEntries)
    (h : compare_key_sets oe ne = none) :
    ((oe.map (·.1)).filter fun k => (lookupKey ne k).isNone).isEmpty = true ∧
    ((ne.map (·.1)).filter fun k => (lookupKey oe k).isNone).isEmpty = true := by
  simp only [compare_key_sets] at h
  by_cases hc : (((oe.map (·.1)).filter fun k => (lookupKey ne k).isNone).isEmpty &&
      ((ne.map (·.1)).filter fun k => (lookupKey oe k).isNone).isEmpty) = true
  · rw [Bool.and_eq_true] at hc
    exact hc
  · rw [if_neg hc] at h
    cases h

theorem joinRows_keys (oe ne : KeyMapEntries) : ∀ l : List Bytes,
    (∀ k ∈ l, (lookupKey oe k).isSome = true ∧ (lookupKey ne k).isSome = true) →
    (l.filterMap fun k =>
      match lookupKey oe k, lookupKey ne k with
      | some o, some n => some (⟨k, o, n⟩ : KeyAlignedRow)
      | _, _ => none).map (·.key) = l := by
  intro l
  induction l with
  | nil => intro _; rfl
  | cons k ks ih =>
    intro hmem
    obtain ⟨h1, h2⟩ := hmem k (List.mem_cons_self k ks)
    rcases ho : lookupKey oe k with _ | o
    · rw [ho] at h1; cases h1
    · rcases hn : lookupKey ne k with _ | n
      · rw [hn] at h2; cases h2
      · simp only [List.filterMap_cons]
        rw [ho, hn]
        dsimp only
        rw [List.map_cons]
        rw [ih fun a ha => hmem a (List.mem_cons_of_mem k ha)]

/-- C8: key-mode alignment — a non-blank record whose trimmed key is empty
fails EmptyKey with that record number; a repeated key fails DuplicateKey
reporting the second occurrence; differing key sets fail KeySetMismatch
with the missing/extra counts and samples sorted by raw bytes truncated to
10; otherwise the join emits each (necessarily distinct) common key exactly
once in ascending key-byte order. -/
theorem c8_theorem :
    (∀ (ki : Nat) (entries : KeyMapEntries) (n : Nat) (r : List Bytes)
        (rest : List (Nat × List Bytes)),
      is_blank_owned_record r = false →
      (ascii_trim (fieldOf r ki)).isEmpty = true →
      build_key_map_loop ki entries ((n, r) :: rest) = .error (.emptyKey n)) ∧
    (∀ (ki : Nat) (entries : KeyMapEntries) (n : Nat) (r : List Bytes)
        (rest : List (Nat × List Bytes)) (ent : KeyEntry),
      is_blank_owned_record r = false →
      (ascii_trim (fieldOf r ki)).isEmpty = false →
      lookupKey entries (ascii_trim (fieldOf r ki)) = some ent →
      build_key_map_loop ki entries ((n, r) :: rest) =
        .error (.duplicateKey (ascii_trim (fieldOf r ki)) ent.record_number n)) ∧
    (∀ (records : List (Nat × List Bytes)) (ki : Nat) (entries : KeyMapEntries),
      build_key_map records ki = .ok entries → (entries.map (·.1)).Nodup) ∧
    (∀ oe ne : KeyMapEntries,
      (((oe.map (·.1)).filter fun k => (lookupKey ne k).isNone).isEmpty &&
        ((ne.map (·.1)).filter fun k => (lookupKey oe k).isNone).isEmpty) = false →
      join_key_maps oe ne = .error (.keySetMismatch
          ((oe.map (·.1)).filter fun k => (lookupKey ne k).isNone).length
          ((ne.map (·.1)).filter fun k => (lookupKey oe k).isNone).length
          ((sortBytes ((oe.map (·.1)).filter fun k => (lookupKey ne k).isNone)).take 10)
          ((sortBytes ((ne.map (·.1)).filter fun k => (lookupKey oe k).isNone)).take 10)) ∧
      ((sortBytes ((oe.map (·.1)).filter fun k => (lookupKey ne k).isNone)).take 10).Pairwise
        (fun a c => byteLtb a c = true ∨ a = c) ∧
      ((sortBytes ((ne.map (·.1)).filter fun k => (lookupKey oe k).isNone)).take 10).Pairwise
        (fun a c => byteLtb a c = true ∨ a = c)) ∧
    (∀ oe ne : KeyMapEntries, compare_key_sets oe ne = none →
      ∃ rows, join_key_maps oe ne = .ok rows ∧
        rows.map (·.key) = sortBytes (oe.map (·.1)) ∧
        (rows.map (·.key)).Pairwise (fun a c => byteLtb a c = true ∨ a = c) ∧
        (rows.map (·.key)).Perm (oe.map (·.1)) ∧
        ((oe.map (·.1)).Nodup → (rows.map (·.key)).Nodup)) ∧
    (build_key_map [(1, [[], [120]])] 0 = .error (.emptyKey 1) ∧
      build_key_map [(1, [[97]]), (2, [[97]])] 0 = .error (.duplicateKey [97] 1 2) ∧
      build_key_map [(1, [[32]]), (2, [[97]])] 0 = .ok [([97], ⟨2, [[97]]⟩)] ∧
      join_key_maps [([97], ⟨1, []⟩)] [([98], ⟨1, []⟩)] =
        .error (.keySetMismatch 1 1 [[97]] [[98]]) ∧
      join_key_maps [([98], ⟨1, []⟩), ([97], ⟨2, []⟩)] [([97], ⟨5, []⟩), ([98], ⟨6, []⟩)] =
        .ok [⟨[97], ⟨2, []⟩, ⟨5, []⟩⟩, ⟨[98], ⟨1, []⟩, ⟨6, []⟩⟩]) := by
  refine ⟨?_, ?_, ?_, ?_, ?_, by decide⟩
  · intro ki entries n r rest hb he
    simp only [build_key_map_loop]
    rw [if_neg (by rw [hb]; decide), if_pos he]
  · intro ki entries n r rest ent hb he hl
    simp only [build_key_map_loop]
    rw [if_neg (by rw [hb]; decide), if_neg (by rw [he]; decide), hl]
  · intro records ki entries h
    rw [build_key_map] at h
    exact build_key_map_loop_nodup ki records [] entries (by simp) h
  · intro oe ne hcond
    refine ⟨?_, (sortBytes_sorted _).sublist (List.take_sublist _ _),
      (sortBytes_sorted _).sublist (List.take_sublist _ _)⟩
    rw [join_key_maps]
    simp only [compare_key_sets]
    rw [if_neg (by rw [hcond]; decide)]
    dsimp only
    rw [(sortBytes_perm _).length_eq, (sortBytes_perm _).length_eq]
  · intro oe ne hcmp
    have hforall : ∀ k ∈ sortBytes (oe.map (·.1)),
        (lookupKey oe k).isSome = true ∧ (lookupKey ne k).isSome = true := by
      intro k hk
      have hk' : k ∈ oe.map (·.1) := (sortBytes_perm _).mem_iff.mp hk
      refine ⟨lookupKey_isSome_of_mem hk', ?_⟩
      have hme := (compare_key_sets_none oe ne hcmp).1
      cases hfl : (oe.map (·.1)).filter (fun k => (lookupKey ne k).isNone) with
      | nil =>
        cases hs : lookupKey ne k with
        | none =>
          exfalso
          have hmemf : k ∈ (oe.map (·.1)).filter (fun k => (lookupKey ne k).isNone) :=
            List.mem_filter.mpr ⟨hk', by rw [hs]; rfl⟩
          rw [hfl] at hmemf
          cases hmemf
        | some v => rfl
      | cons a as =>
        exfalso
        rw [hfl] at hme
        cases hme
    refine ⟨_, ?_, joinRows_keys oe ne _ hforall, ?_, ?_, ?_⟩
    · rw [join_key_maps, hcmp]
    · rw [joinRows_keys oe ne _ hforall]
      exact sortBytes_sorted _
    · rw [joinRows_keys oe ne _ hforall]
      exact sortBytes_perm _
    · intro hnd
      rw [joinRows_keys oe ne _ hforall]
      exact ((sortBytes_perm _).nodup_iff).mpr hnd

/-- C8 witness: a repeated key reports the second occurrence, and the
mismatch-free join of a two-key map is sorted ascending by key bytes. -/
theorem c8_witness :
    build_key_map_loop 0 [([97], ⟨1, [[97]]⟩)] [(2, [[97]])] =
      .error (.duplicateKey (ascii_trim (fieldOf [[97]] 0)) 1 2) ∧
    (∃ rows, join_key_maps [([98], ⟨1, []⟩), ([97], ⟨2, []⟩)]
          [([97], ⟨5, []⟩), ([98], ⟨6, []⟩)] = .ok rows ∧
      rows.map (·.key) =
        sortBytes ([([98], (⟨1, []⟩ : KeyEntry)), ([97], ⟨2, []⟩)].map (·.1)) ∧
      (rows.map (·.key)).Pairwise (fun a c => byteLtb a c = true ∨ a = c) ∧
      (rows.map (·.key)).Perm ([([98], (⟨1, []⟩ : KeyEntry)), ([97], ⟨2, []⟩)].map (·.1)) ∧
      (([([98], (⟨1, []⟩ : KeyEntry)), ([97], ⟨2, []⟩)].map (·.1)).Nodup →
        (rows.map (·.key)).Nodup)) :=
  ⟨c8_theorem.2.1 0 [([97], ⟨1, [[97]]⟩)] 2 [[97]] [] ⟨1, [[97]]⟩
      (by decide) (by decide) (by decide),
    c8_theorem.2.2.2.2.1 [([98], ⟨1, []⟩), ([97], ⟨2, []⟩)]
      [([97], ⟨5, []⟩), ([98], ⟨6, []⟩)] (by decide)⟩

end Rvl
